import Mathlib

/-!
# Performous song parser: constructor, track merger and finalizer

A shallow embedding of `src/game/songparser.cc` (the field conversions
`SongParserUtil::assign`, the constructor, `vocalsTogether` and `finalize`) and of
`getPaths` of `src/game/fs.cc`.

* C++ `double` values are modelled by rationals (every finite double is one); sums and
  quotients are exact, a NaN `preview_start` is `none`, and `1.0 / 0.0` is
  `ScoreFactor.infinite`.
* C++ `int` / `unsigned` values are integers with explicit reduction modulo `2^32`.
* `std::map<std::string, VocalTrack>` is an association list in iteration order.
* The per-format checks and readers, `convertToUTF8`, `tsTime`, `Note::maxScore`,
  `boost::lexical_cast` and the filesystem are not part of these files; they are
  parameters.
-/

namespace Performous

/-! ## Data model -/

/-- Modelled from the spec: the load-status state machine of a Song,
EMPTY, then HEADER, then FULL (declared in song.hh). -/
inductive LoadStatus
  | EMPTY
  | HEADER
  | FULL
deriving DecidableEq, Repr

/-- Position of a load status in the order EMPTY < HEADER < FULL. -/
def LoadStatus.rank : LoadStatus → Nat
  | .EMPTY => 0
  | .HEADER => 1
  | .FULL => 2

/-- Modelled from the spec: the type tag of a Note (declared in notes.hh). -/
inductive NoteType
  | NORMAL
  | FREESTYLE
  | GOLDEN
  | SLEEP
  | SLIDE
deriving DecidableEq, Repr

/-- Modelled from the spec: a Note (declared in notes.hh) with the fields that
songparser.cc reads and writes: start and end time, type tag, pitch, pitch of
the previous note, and syllable. -/
structure Note where
  begin : ℚ
  end_ : ℚ
  type : NoteType
  note : Int
  notePrev : Int
  syllable : String
deriving DecidableEq, Repr

abbrev Notes := List Note

/-- The value of a C++ double that results from `1.0 / x`: a finite number, or
infinity when the divisor is zero. -/
inductive ScoreFactor
  | finite (q : ℚ)
  | infinite
deriving DecidableEq, Repr

/-- Modelled from the spec: a VocalTrack (declared in notes.hh) with the fields
that songparser.cc reads and writes. -/
structure VocalTrack where
  notes : Notes
  noteMin : Int
  noteMax : Int
  beginTime : ℚ
  endTime : ℚ
  m_scoreFactor : ScoreFactor
deriving DecidableEq, Repr

/-- The `std::map<std::string, VocalTrack>` of a Song, in iteration order. -/
abbrev VocalTracks := List (String × VocalTrack)

/-- Modelled from the spec: a Song (declared in song.hh) with the fields that
songparser.cc reads and writes. A `preview_start` of `none` is NaN. -/
structure Song where
  loadStatus : LoadStatus
  path : String
  filename : String
  cover : String
  background : String
  video : String
  preview_start : Option ℚ
  vocalTracks : VocalTracks
  beats : List ℚ
deriving DecidableEq, Repr

/-! ## Track merger: `SongParser::vocalsTogether` -/

/-- The `find` of the vocal-track map: the track stored under `name`. -/
def findTrack (name : String) : VocalTracks → Option VocalTrack
  | [] => none
  | nt :: rest => if nt.1 = name then some nt.2 else findTrack name rest

/-- Replaces the notes of the track that `findTrack name` returns
(the `together.swap(notes)` of vocalsTogether). -/
def swapNotes (name : String) (notes : Notes) : VocalTracks → VocalTracks
  | [] => []
  | nt :: rest =>
    if nt.1 = name then (nt.1, { nt.2 with notes := notes }) :: rest
    else nt :: swapNotes name notes rest

/-- The inner loop `while (trk2.it != trk2.end && trk2.it->begin < n.end) ++trk2.it`,
on the remaining notes of one track. -/
def skipUntil (e : ℚ) : Notes → Notes
  | [] => []
  | x :: xs => if x.begin < e then skipUntil e xs else x :: xs

/-- The loop `for (TrackInfo& trk2: tracks)` of vocalsTogether. `cursors` holds, for
each track still to visit, its notes from `it` to `end`; `i` is the index of the
first of them and `trk` the track selected so far, as its index together with the
begin time of its current note. Returns the advanced cursors and the selection. -/
def scanTracks (e : ℚ) : List Notes → Nat → Option (Nat × ℚ) → List Notes × Option (Nat × ℚ)
  | [], _, trk => ([], trk)
  | c :: cs, i, trk =>
    let c2 := skipUntil e c
    let trk2 : Option (Nat × ℚ) :=
      match c2 with
      | [] => trk
      | x :: _ =>
        match trk with
        | none => some (i, x.begin)
        | some (j, b) => if x.begin < b then some (i, x.begin) else some (j, b)
    let r := scanTracks e cs (i + 1) trk2
    (c2 :: r.1, r.2)

/-- The loop `while (trk)` of vocalsTogether: returns the notes pushed to `notes`.
`tracks` are the cursors, `trk` the index of the selected track. Each turn consumes a
note, so `fuel` equal to the number of remaining notes is never exhausted
(`mergeLoop_fuel`). -/
def mergeLoop : Nat → List Notes → Nat → Notes
  | 0, _, _ => []
  | fuel + 1, tracks, trk =>
    match tracks.get? trk with
    | some (n :: rest) =>
      let r := scanTracks n.end_ (tracks.set trk rest) 0 none
      match r.2 with
      | none => [n]
      | some (j, _) => n :: mergeLoop fuel r.1 j
    | _ => []

/-- Number of notes left in all cursors. -/
def remaining (tracks : List Notes) : Nat :=
  (tracks.map List.length).sum

/-- The usable vocal tracks collected by vocalsTogether: the note lists of all
tracks that have notes, in map order. -/
def usableTracks (vt : VocalTracks) : List Notes :=
  (vt.map (fun nt => nt.2.notes)).filter (fun n => !n.isEmpty)

/-- The function `SongParser::vocalsTogether`, on the Song it works on. -/
def vocalsTogether (song : Song) : Song :=
  match findTrack "Together" song.vocalTracks with
  | none => song
  | some together =>
    if !together.notes.isEmpty then song
    else
      let tracks := usableTracks song.vocalTracks
      if tracks.isEmpty then song
      else
        let notes := mergeLoop (remaining tracks) tracks 0
        { song with vocalTracks := swapNotes "Together" notes song.vocalTracks }

/-! ## Finalizer: `SongParser::finalize` -/

/-- The loop that removes empty sentences: `lastType` is the type of the note
visited just before (erased or not), and a SLEEP that follows a SLEEP is erased. -/
def removeEmptySentences : NoteType → Notes → Notes
  | _, [] => []
  | lastType, n :: rest =>
    if n.type = NoteType.SLEEP ∧ lastType = NoteType.SLEEP then removeEmptySentences n.type rest
    else n :: removeEmptySentences n.type rest

/-- Value of a 32-bit `int` holding `x` modulo `2^32`. -/
def toInt32 (x : Int) : Int :=
  (x + 2147483648) % 4294967296 - 2147483648

/-- Value of a 32-bit `unsigned` holding `x` modulo `2^32`. -/
def toUInt32 (x : Int) : Int :=
  x % 4294967296

/-- The initializer `unsigned int shift = (1 - vocal.noteMin / 12) * 12`: `int`
arithmetic with the division of C++, which truncates toward zero, converted to
`unsigned`. -/
def octaveShift (noteMin : Int) : Int :=
  toUInt32 (toInt32 ((1 - Int.tdiv noteMin 12) * 12))

/-- The compound assignment `x += shift` for an `int x` and an `unsigned shift`: the sum
is formed in `unsigned` and converted back to `int`. -/
def addShift (x shift : Int) : Int :=
  toInt32 (toUInt32 (toUInt32 x + shift))

/-- The block `Adjust negative notes` of finalize. -/
def adjustNegativeNotes (vocal : VocalTrack) : VocalTrack :=
  if vocal.noteMin ≤ 0 then
    let shift := octaveShift vocal.noteMin
    { vocal with
      noteMin := addShift vocal.noteMin shift
      noteMax := addShift vocal.noteMax shift
      notes := vocal.notes.map
        (fun n => { n with note := addShift n.note shift, notePrev := addShift n.notePrev shift }) }
  else vocal

/-- The block `Set begin/end times` of finalize. -/
def setTimes (vocal : VocalTrack) : VocalTrack :=
  match vocal.notes.head?, vocal.notes.getLast? with
  | some front, some back => { vocal with beginTime := front.begin, endTime := back.end_ }
  | _, _ => { vocal with beginTime := 0, endTime := 0 }

/-- The loop `max_score += itn->maxScore()` of finalize, starting from `0.0`. -/
def sumMaxScore (maxScore : Note → ℚ) (notes : Notes) : ℚ :=
  notes.foldl (fun acc n => acc + maxScore n) 0

/-- The division `1.0 / max_score` of finalize in double arithmetic. -/
def reciprocal (max_score : ℚ) : ScoreFactor :=
  if max_score = 0 then ScoreFactor.infinite else ScoreFactor.finite (1 / max_score)

/-- The block `Compute maximum score` of finalize. -/
def computeScoreFactor (maxScore : Note → ℚ) (vocal : VocalTrack) : VocalTrack :=
  { vocal with m_scoreFactor := reciprocal (sumMaxScore maxScore vocal.notes) }

/-- The body of the loop `for (auto& nt: m_song.vocalTracks)` of finalize. -/
def finalizeTrack (maxScore : Note → ℚ) (vocal : VocalTrack) : VocalTrack :=
  computeScoreFactor maxScore
    (setTimes
      (adjustNegativeNotes
        { vocal with notes := removeEmptySentences NoteType.NORMAL vocal.notes }))

/-! ## Parser state and collaborators -/

/-- An exception in flight inside the constructor: a `std::runtime_error`
(SongParserException is one) or any other `std::exception`, with its `what()`. -/
inductive Thrown
  | runtime_error (what : String)
  | exception (what : String)
deriving DecidableEq, Repr

/-- The exception that leaves the constructor: message and line number. -/
structure SongParserException where
  msg : String
  linenum : Nat
deriving DecidableEq, Repr

/-- The members of SongParser (declared in songparser.hh). `m_song` is the Song the
parser was built on, `m_ss` the text of the file. The tempo members are only used by
the readers and by `tsTime`. -/
structure SongParser where
  m_song : Song
  m_ss : List UInt8
  m_linenum : Nat
  m_relative : Bool
  m_gap : ℚ
  m_bpm : ℚ
  m_prevtime : ℚ
  m_prevts : Nat
  m_relativeShift : ℚ
  m_tsPerBeat : Nat
  m_tsEnd : Nat
  m_bpms : List (ℚ × ℚ × ℚ)

/-- A member function that may throw: the state it leaves and the exception, if any. -/
abbrev Step := SongParser → SongParser × Option Thrown

/-- The type discriminant `enum { NONE, TXT, XML, INI, SM }` of the constructor. -/
inductive FileType
  | NONE
  | TXT
  | XML
  | INI
  | SM
deriving DecidableEq, Repr

/-- Everything the constructor calls that songparser.cc does not define: the file
system, the three boost regexes, and the member functions defined in the per-format
files (checks, header readers, body readers), `convertToUTF8`, `tsTime` and
`Note::maxScore`. -/
structure Env where
  fileData : String → Option (List UInt8)
  readFails : String → Bool
  pathExists : String → Bool
  listDir : String → Except Thrown (List String)
  coverfile : String → Bool
  backgroundfile : String → Bool
  videofile : String → Bool
  smCheck : List UInt8 → Bool
  txtCheck : List UInt8 → Bool
  iniCheck : List UInt8 → Bool
  xmlCheck : List UInt8 → Bool
  txtParseHeader : Step
  iniParseHeader : Step
  xmlParseHeader : Step
  smParseHeader : Step
  txtParse : Step
  iniParse : Step
  xmlParse : Step
  smParse : Step
  convertToUTF8 : List UInt8 → String → List UInt8
  tsTime : SongParser → Nat → Except Thrown ℚ
  maxScore : Note → ℚ

/-- The loop `for (unsigned ts = 0; ts < m_tsEnd; ts += m_tsPerBeat)` of finalize.
The counter is an `unsigned`, so it takes at most `2^32` values: a loop that has not
left after that many turns never leaves, and pushes beats until allocation fails. -/
def beatLoop (env : Env) : Nat → Nat → SongParser → SongParser × Option Thrown
  | 0, _, p => (p, some (Thrown.exception "std::bad_alloc"))
  | fuel + 1, ts, p =>
    if ts < p.m_tsEnd then
      match env.tsTime p ts with
      | .error t => (p, some t)
      | .ok b =>
        beatLoop env fuel ((ts + p.m_tsPerBeat) % 4294967296)
          { p with m_song := { p.m_song with beats := p.m_song.beats ++ [b] } }
    else (p, none)

/-- The function `SongParser::finalize`. -/
def finalize (env : Env) (p : SongParser) : SongParser × Option Thrown :=
  let s1 := vocalsTogether p.m_song
  let s2 : Song := { s1 with
    vocalTracks := s1.vocalTracks.map (fun nt => (nt.1, finalizeTrack env.maxScore nt.2)) }
  let p2 : SongParser := { p with m_song := s2 }
  if p2.m_tsPerBeat ≠ 0 then beatLoop env 4294967296 0 p2
  else (p2, none)


/-! ## Constructor: `SongParser::SongParser` -/

/-- Modelled from the spec: `Song::dropNotes` (defined in song.cc) drops the notes
of the Song, which here are the notes of its vocal tracks. -/
def dropNotes (song : Song) : Song :=
  { song with
    vocalTracks := song.vocalTracks.map (fun nt => (nt.1, { nt.2 with notes := [] })) }

/-- The member initializers of the constructor: `m_song(s)` and value-initialized
members. -/
def SongParser.start (s : Song) : SongParser :=
  { m_song := s, m_ss := [], m_linenum := 0, m_relative := false, m_gap := 0, m_bpm := 0,
    m_prevtime := 0, m_prevts := 0, m_relativeShift := 0, m_tsPerBeat := 0, m_tsEnd := 0,
    m_bpms := [] }

/-- The first block of the constructor (lines 58 to 73): opens the file, checks its
size, reads it and determines the type. The SongParserException thrown here is a
`std::runtime_error`, which is how the handlers of the constructor see it. -/
def readAndDetect (env : Env) (s : Song) : Except Thrown (FileType × List UInt8) :=
  match env.fileData (s.path ++ s.filename) with
  | none => .error (Thrown.runtime_error "Could not open song file")
  | some data =>
    let size := data.length
    if size < 10 ∨ size > 100000 then
      .error (Thrown.runtime_error "Does not look like a song file (wrong size)")
    else if env.readFails (s.path ++ s.filename) then
      .error (Thrown.runtime_error "Unexpected I/O error")
    else if env.smCheck data then .ok (FileType.SM, data)
    else if env.txtCheck data then .ok (FileType.TXT, data)
    else if env.iniCheck data then .ok (FileType.INI, data)
    else if env.xmlCheck data then .ok (FileType.XML, data)
    else .error (Thrown.runtime_error "Does not look like a song file (wrong header)")

/-- The dispatch of lines 77 to 80 and 114 to 117: the body reader of the type. -/
def parseBody (env : Env) (type : FileType) : Step := fun p =>
  if type = FileType.TXT then env.txtParse p
  else if type = FileType.INI then env.iniParse p
  else if type = FileType.XML then env.xmlParse p
  else if type = FileType.SM then env.smParse p
  else (p, none)

/-- The dispatch of lines 86 to 89: the header reader of the type; for SM the notes
are dropped afterwards. -/
def parseHeader (env : Env) (type : FileType) : Step := fun p =>
  if type = FileType.TXT then env.txtParseHeader p
  else if type = FileType.INI then env.iniParseHeader p
  else if type = FileType.XML then env.xmlParseHeader p
  else if type = FileType.SM then
    match env.smParseHeader p with
    | (p2, none) => ({ p2 with m_song := dropNotes p2.m_song }, none)
    | (p2, some t) => (p2, some t)
  else (p, none)

/-- Lines 77 to 82, and again lines 114 to 119: body reader, `finalize`, then
`s.loadStatus = Song::FULL`. -/
def parseAndFinalize (env : Env) (type : FileType) : Step := fun p =>
  match parseBody env type p with
  | (p2, some t) => (p2, some t)
  | (p2, none) =>
    match finalize env p2 with
    | (p3, some t) => (p3, some t)
    | (p3, none) => ({ p3 with m_song := { p3.m_song with loadStatus := LoadStatus.FULL } }, none)

/-- Line 91: the default for the preview position when the header gave none. -/
def defaultPreview (type : FileType) (song : Song) : Song :=
  match song.preview_start with
  | none => { song with preview_start := some (if type = FileType.INI then 5 else 30) }
  | some _ => song

/-- Lines 94 to 96: remove entries that name no existing file. -/
def removeBogus (env : Env) (song : Song) : Song :=
  let s1 : Song := if !env.pathExists (song.path ++ song.cover) then { song with cover := "" } else song
  let s2 : Song :=
    if !env.pathExists (s1.path ++ s1.background) then { s1 with background := "" } else s1
  if !env.pathExists (s2.path ++ s2.video) then { s2 with video := "" } else s2

/-- The body of the directory loop of lines 105 to 111, for one file name. -/
def guessFile (env : Env) (song : Song) (name : String) : Song :=
  if song.cover.isEmpty && env.coverfile name then { song with cover := name }
  else if song.background.isEmpty && env.backgroundfile name then { song with background := name }
  else if song.video.isEmpty && env.videofile name then { song with video := name }
  else song

/-- Lines 99 to 112: guess the images and video from the directory listing. -/
def guessFiles (env : Env) (song : Song) : Song × Option Thrown :=
  if song.cover.isEmpty || song.background.isEmpty || song.video.isEmpty then
    match env.listDir song.path with
    | .error t => (song, some t)
    | .ok names => (names.foldl (guessFile env) song, none)
  else (song, none)

/-- Lines 74 to 119 of the constructor: what it does once the type is determined
and `data` has been written to `m_ss`. -/
def parseAs (env : Env) (s : Song) (type : FileType) (data : List UInt8) :
    SongParser × Option Thrown :=
  let p0 := SongParser.start s
  let p1 : SongParser := { p0 with m_ss := env.convertToUTF8 data (s.path ++ s.filename) }
  if p1.m_song.loadStatus = LoadStatus.HEADER then parseAndFinalize env type p1
  else
    match parseHeader env type p1 with
    | (p2, some t) => (p2, some t)
    | (p2, none) =>
      let s3 := removeBogus env (defaultPreview type p2.m_song)
      match guessFiles env s3 with
      | (s4, some t) => ({ p2 with m_song := s4 }, some t)
      | (s4, none) =>
        let p5 : SongParser := { p2 with m_song := { s4 with loadStatus := LoadStatus.HEADER } }
        parseAndFinalize env type p5

/-- The function body of the constructor, lines 56 to 119, before the handlers. -/
def constructorBody (env : Env) (s : Song) : SongParser × Option Thrown :=
  match readAndDetect env s with
  | .error t => (SongParser.start s, some t)
  | .ok (type, data) => parseAs env s type data

/-- The handlers of the function-try-block (lines 120 to 124): whatever was thrown
leaves as a SongParserException with the line number reached. -/
def rethrow (p : SongParser) : Thrown → SongParserException
  | Thrown.runtime_error what => { msg := what, linenum := p.m_linenum }
  | Thrown.exception what => { msg := "Internal error: " ++ what, linenum := p.m_linenum }

/-- The constructor `SongParser::SongParser(Song& s)`: the Song as the call leaves it
and the exception that the call throws, if any. -/
def SongParser.SongParser (env : Env) (s : Song) : Song × Option SongParserException :=
  match constructorBody env s with
  | (p, none) => (p.m_song, none)
  | (p, some t) => (p.m_song, some (rethrow p t))


/-! ## Specification-side definitions and example collaborators -/

/-- The priority order of the format checks as the spec gives it: SM, TXT, INI, XML. -/
def checkOrder : List FileType :=
  [FileType.SM, FileType.TXT, FileType.INI, FileType.XML]

/-- The result of the check that belongs to a format. -/
def checkOf (env : Env) (data : List UInt8) : FileType → Bool
  | FileType.SM => env.smCheck data
  | FileType.TXT => env.txtCheck data
  | FileType.INI => env.iniCheck data
  | FileType.XML => env.xmlCheck data
  | FileType.NONE => false

/-- The first format, in the order of the spec, whose check returns true. -/
def firstMatch (env : Env) (data : List UInt8) : Option FileType :=
  checkOrder.find? (checkOf env data)

/-- The message of the size check. -/
def wrongSize : String :=
  "Does not look like a song file (wrong size)"

/-- The message thrown when no format check matches. -/
def wrongHeader : String :=
  "Does not look like a song file (wrong header)"

/-- A step leaves the load status of the Song alone. -/
def KeepsLoadStatus (f : Step) : Prop :=
  ∀ p, (f p).1.m_song.loadStatus = p.m_song.loadStatus

/-- None of the eight readers assigns `loadStatus`. -/
def Env.KeepsLoadStatus (env : Env) : Prop :=
  Performous.KeepsLoadStatus env.txtParseHeader ∧ Performous.KeepsLoadStatus env.iniParseHeader ∧
  Performous.KeepsLoadStatus env.xmlParseHeader ∧ Performous.KeepsLoadStatus env.smParseHeader ∧
  Performous.KeepsLoadStatus env.txtParse ∧ Performous.KeepsLoadStatus env.iniParse ∧
  Performous.KeepsLoadStatus env.xmlParse ∧ Performous.KeepsLoadStatus env.smParse

/-- Example collaborators: one file with bytes `data`, the four checks answer
`sm`, `txt`, `ini`, `xml`, every reader succeeds and changes nothing. -/
def exampleEnv (data : List UInt8) (sm txt ini xml : Bool) : Env :=
  { fileData := fun _ => some data
    readFails := fun _ => false
    pathExists := fun _ => true
    listDir := fun _ => .ok []
    coverfile := fun _ => false
    backgroundfile := fun _ => false
    videofile := fun _ => false
    smCheck := fun _ => sm
    txtCheck := fun _ => txt
    iniCheck := fun _ => ini
    xmlCheck := fun _ => xml
    txtParseHeader := fun p => (p, none)
    iniParseHeader := fun p => (p, none)
    xmlParseHeader := fun p => (p, none)
    smParseHeader := fun p => (p, none)
    txtParse := fun p => (p, none)
    iniParse := fun p => (p, none)
    xmlParse := fun p => (p, none)
    smParse := fun p => (p, none)
    convertToUTF8 := fun d _ => d
    tsTime := fun _ ts => .ok ts
    maxScore := fun _ => 1 }

/-- Example Song with the given load status and no tracks. -/
def exampleSong (st : LoadStatus) : Song :=
  { loadStatus := st, path := "songs/demo/", filename := "notes.txt", cover := "",
    background := "", video := "", preview_start := none, vocalTracks := [], beats := [] }

/-- A file of `n` zero bytes. -/
def zeroBytes (n : Nat) : List UInt8 :=
  List.replicate n 0

/-- Example collaborators for a TXT file whose body reader throws on a malformed
note line. -/
def bodyFailsEnv : Env :=
  { exampleEnv (zeroBytes 12) false true false false with
    txtParse := fun p => ({ p with m_linenum := 7 }, some (Thrown.runtime_error "Invalid note line format")) }

/-- A plain note from `b` to `e` with syllable "la". -/
def la (b e : ℚ) : Note :=
  { begin := b, end_ := e, type := NoteType.NORMAL, note := 60, notePrev := 60, syllable := "la" }

/-- A vocal track holding `notes`, with no cached data yet. -/
def trackOf (notes : Notes) : VocalTrack :=
  { notes := notes, noteMin := 60, noteMax := 60, beginTime := 0, endTime := 0,
    m_scoreFactor := ScoreFactor.infinite }

/-- Example collaborators for a TXT file whose body reader stores one track with two
notes. -/
def txtEnv : Env :=
  { exampleEnv (zeroBytes 12) false true false false with
    txtParse := fun p =>
      ({ p with m_song := { p.m_song with vocalTracks := [("VOCALS", trackOf [la 0 2, la 5 7])] } },
        none) }


/-- A Song holding the given vocal tracks. -/
def songOf (tracks : VocalTracks) : Song :=
  { exampleSong LoadStatus.HEADER with vocalTracks := tracks }

/-- The two-singer example of the spec: tracks A and B and an empty Together track. -/
def duetSong : Song :=
  songOf [("A", trackOf [la 0 2, la 5 7]), ("B", trackOf [la 1 3, la 5 7]),
    ("Together", trackOf [])]

/-- Two singers of whom the second starts first, and an empty Together track. -/
def lateFirstSong : Song :=
  songOf [("A", trackOf [la 5 7]), ("B", trackOf [la 0 2]), ("Together", trackOf [])]

/-- Two singers and no Together track. -/
def noTogetherSong : Song :=
  songOf [("A", trackOf [la 0 2, la 5 7]), ("B", trackOf [la 1 3, la 5 7])]

/-- A Song whose Together track already has a note. -/
def filledSong : Song :=
  songOf [("A", trackOf [la 0 2, la 5 7]), ("Together", trackOf [la 0 2])]

/-- The rule of the spec for empty sentences, in its words: a note is removed when it is a
SLEEP note that immediately follows another SLEEP note in the input. `pred` is the note
right before it in the input, if there is one. -/
def followsSleep (pred : Option Note) (n : Note) : Bool :=
  n.type = NoteType.SLEEP && pred.map Note.type = some NoteType.SLEEP

/-- The input sequence with exactly those SLEEP notes removed that immediately follow
another SLEEP note in the input: each note is paired with its predecessor in the input
(none for the first note) and kept unless the rule applies. -/
def withoutRepeatedSleeps (notes : Notes) : Notes :=
  ((notes.zip (none :: notes.map some)).filter (fun np => !followsSleep np.2 np.1)).map Prod.fst

/-- A SLEEP note from `b` to `e`. -/
def sleep (b e : ℚ) : Note :=
  { begin := b, end_ := e, type := NoteType.SLEEP, note := 0, notePrev := 0, syllable := "" }

/-- A note of pitch `pitch`, with the same previous pitch. -/
def pitched (pitch : Int) : Note :=
  { begin := 0, end_ := 1, type := NoteType.NORMAL, note := pitch, notePrev := pitch,
    syllable := "la" }

/-- A vocal track with the given pitch range and notes. -/
def rangeTrack (noteMin noteMax : Int) (notes : Notes) : VocalTrack :=
  { notes := notes, noteMin := noteMin, noteMax := noteMax, beginTime := 0, endTime := 0,
    m_scoreFactor := ScoreFactor.infinite }

/-- The pitch `x` of a track goes through the pitch normalization without wrap-around:
either the track is not shifted at all, or `x + shift` is still a 32-bit `int`. -/
def ShiftFits (vocal : VocalTrack) (x : Int) : Prop :=
  0 < vocal.noteMin ∨
  (-2147483648 ≤ x + octaveShift vocal.noteMin ∧ x + octaveShift vocal.noteMin ≤ 2147483647)

/-- Example of `Note::maxScore` (defined in notes.cc): a rest scores nothing, a golden
note twice its duration and any other note its duration. -/
def exampleMaxScore (n : Note) : ℚ :=
  (if n.type = NoteType.GOLDEN then 2 else if n.type = NoteType.SLEEP then 0 else 1) *
    (n.end_ - n.begin)

/-- The state of finalize after the loop over the vocal tracks (lines 175 to 211) and
before the beat markers are added. -/
def finalizeTracks (env : Env) (p : SongParser) : SongParser :=
  { p with
    m_song :=
      { vocalsTogether p.m_song with
        vocalTracks := (vocalsTogether p.m_song).vocalTracks.map
          (fun nt => (nt.1, finalizeTrack env.maxScore nt.2)) } }

/-- A Song with one vocal track of two notes and no Together track. -/
def soloSong : Song :=
  songOf [("VOCALS", trackOf [la 0 2, la 5 7])]

/-- A Song whose only vocal track has no notes. -/
def silentSong : Song :=
  songOf [("VOCALS", trackOf [])]

/-- Start and end time of a note. -/
def Note.times (n : Note) : ℚ × ℚ :=
  (n.begin, n.end_)

/-- A step leaves the preview position of the Song alone. -/
def KeepsPreview (f : Step) : Prop :=
  ∀ p, (f p).1.m_song.preview_start = p.m_song.preview_start

/-- None of the four body readers assigns `preview_start`. -/
def Env.BodyKeepsPreview (env : Env) : Prop :=
  Performous.KeepsPreview env.txtParse ∧ Performous.KeepsPreview env.iniParse ∧
  Performous.KeepsPreview env.xmlParse ∧ Performous.KeepsPreview env.smParse

/-- The parser state with the beat sequence of its Song replaced by `beats`. -/
def withBeats (p : SongParser) (beats : List ℚ) : SongParser :=
  { p with m_song := { p.m_song with beats := beats } }

/-- The tick multiples `0, p, 2p, ...` below the end tick `e`, in increasing order. -/
def beatTicks (p e : Nat) : List Nat :=
  (List.range ((e + p - 1) / p)).map (fun k => k * p)

/-- A parser whose format declared 480 ticks per beat and the end tick 1000. -/
def tickParser : SongParser :=
  { SongParser.start soloSong with m_tsPerBeat := 480, m_tsEnd := 1000 }

/-! ## Field conversions: `SongParserUtil::assign` -/

/-- The double quote that the messages put around the string. -/
def quote : String :=
  String.singleton (Char.ofNat 34)

/-- The library casts `boost::lexical_cast<int>` and `boost::lexical_cast<double>`: the
value, or none when the cast throws. -/
structure LexicalCast where
  toInt : String → Option Int
  toDouble : String → Option ℚ

/-- The overload `assign(int& var, std::string const& str)`: the variable after the call
and the message of the runtime_error thrown, if any. -/
def assignInt (cast : LexicalCast) (var : Int) (str : String) : Int × Option String :=
  match cast.toInt str with
  | some v => (v, none)
  | none => (var, some (quote ++ str ++ (quote ++ " is not valid integer value")))

/-- The overload `assign(unsigned& var, std::string const& str)`, which casts to `int`
and stores the value in the `unsigned`. -/
def assignUnsigned (cast : LexicalCast) (var : Int) (str : String) : Int × Option String :=
  match cast.toInt str with
  | some v => (toUInt32 v, none)
  | none => (var, some (quote ++ str ++ (quote ++ " is not valid unsigned integer value")))

/-- The call `std::replace(str.begin(), str.end(), ',', '.')` on the copy of the
argument. -/
def fixSeparators (str : String) : String :=
  String.mk (str.data.map (fun c => if c = ',' then '.' else c))

/-- The overload `assign(double& var, std::string str)`: the decimal separators of the
copy are fixed first, and the copy is what is cast and what the message shows. -/
def assignDouble (cast : LexicalCast) (var : ℚ) (str : String) : ℚ × Option String :=
  match cast.toDouble (fixSeparators str) with
  | some v => (v, none)
  | none =>
    (var, some (quote ++ fixSeparators str ++ (quote ++ " is not valid floating point value")))

/-- The overload `assign(bool& var, std::string const& str)`. -/
def assignBool (var : Bool) (str : String) : Bool × Option String :=
  if str = "YES" ∨ str = "yes" ∨ str = "1" then (true, none)
  else if str = "NO" ∨ str = "no" ∨ str = "0" then (false, none)
  else (var, some ("Invalid boolean value: " ++ str))

/-- The message `msg` contains the string `raw` verbatim. -/
def ContainsVerbatim (msg raw : String) : Prop :=
  raw.data <:+: msg.data

/-- Value of a non-empty sequence of decimal digits. -/
def decimalValue (cs : List Char) : Option Nat :=
  if cs = [] ∨ ¬ cs.all (fun c => decide (48 ≤ c.toNat ∧ c.toNat ≤ 57)) = true then none
  else some (cs.foldl (fun acc c => 10 * acc + (c.toNat - 48)) 0)

/-- Example of the library casts, for plain decimal literals: digits for an `int`, digits
with at most one decimal point and digits behind it for a `double`. -/
def exampleCast : LexicalCast :=
  { toInt := fun s => (decimalValue s.data).map (fun n => (n : Int))
    toDouble := fun s =>
      match s.data.span (fun c => decide (48 ≤ c.toNat ∧ c.toNat ≤ 57)) with
      | (ip, []) => (decimalValue ip).map (fun n => (n : ℚ))
      | (ip, c :: fp) =>
        if c = '.' then
          match decimalValue ip, decimalValue fp with
          | some a, some b => some ((a : ℚ) + (b : ℚ) / 10 ^ fp.length)
          | _, _ => none
        else none }

/-! ## Data paths: `getPaths` of fs.cc -/

/-- The scan of `std::unique` behind the element `last` kept last: an element equal to it
is dropped, any other element is kept and compared against from then on. -/
def uniqueFrom {α : Type} [DecidableEq α] (last : α) : List α → List α
  | [] => []
  | b :: rest => if last = b then uniqueFrom last rest else b :: uniqueFrom b rest

/-- The call `paths.erase(std::unique(paths.begin(), paths.end()), paths.end())`: of every
run of equal adjacent elements only the first is kept. -/
def unique {α : Type} [DecidableEq α] : List α → List α
  | [] => []
  | a :: rest => a :: uniqueFrom a rest

/-- What getPaths reads from its surroundings, for a type `α` of paths: the user data
directory, the directory relative to the executable, the entries of XDG_DATA_DIRS with
the short directory appended, the configured system paths after `pathMangle`, and which
paths exist. -/
structure PathEnv (α : Type) where
  dataDir : α
  execShare : α
  xdgDataDirs : List α
  systemPaths : List α
  pathExists : α → Bool

/-- The predicate `pathNotExist` of fs.cc. -/
def pathNotExist {α : Type} (env : PathEnv α) (p : α) : Bool :=
  if env.pathExists p then false else true

/-- The candidate list `dirs` of getPaths, lines 186 to 203. -/
def candidateDirs {α : Type} (env : PathEnv α) : List α :=
  [env.dataDir] ++ [env.execShare] ++ env.xdgDataDirs ++ env.systemPaths

/-- The static variables of getPaths. -/
structure PathsState (α : Type) where
  paths : List α
  initialized : Bool

/-- The function `getPaths(bool refresh)`: the static state after the call and the list
returned. -/
def getPaths {α : Type} [DecidableEq α] (env : PathEnv α) (refresh : Bool)
    (st : PathsState α) : PathsState α × List α :=
  if !st.initialized || refresh then
    let dirs := candidateDirs env
    let paths := unique (dirs.filter (fun p => !pathNotExist env p))
    ({ paths := paths, initialized := true }, paths)
  else (st, st.paths)

/-- A standard installation under /usr: the executable-relative directory and the second
entry of the default XDG_DATA_DIRS are the same existing path, with an existing
/usr/local path between them. -/
def usrInstall : PathEnv String :=
  { dataDir := "/home/user/.local/share/performous"
    execShare := "/usr/share/performous"
    xdgDataDirs := ["/usr/local/share/performous", "/usr/share/performous"]
    systemPaths := []
    pathExists := fun p => p = "/usr/share/performous" || p = "/usr/local/share/performous" }

/-- What the selection of the loop over all tracks satisfies, for cursors `cs` visited
from index `i` on with `trk` selected before: nothing is selected only when nothing was
and no cursor has a note left at or after `e`; otherwise either the earlier selection is
kept and no current note starts earlier, or a track `j` of `cs` is selected, its current
note starts at `b`, strictly earlier than the earlier selection and than the current notes
of the tracks before it, and no current note starts earlier than `b`. -/
def Selected (e : ℚ) (cs : List Notes) (i : Nat) (trk : Option (Nat × ℚ)) :
    Option (Nat × ℚ) → Prop
  | none => trk = none ∧ ∀ c ∈ cs, skipUntil e c = []
  | some (j, b) =>
    (trk = some (j, b) ∧
      ∀ k c y rest, cs.get? k = some c → skipUntil e c = y :: rest → b ≤ y.begin) ∨
    (i ≤ j ∧
      (∃ c x rest, cs.get? (j - i) = some c ∧ skipUntil e c = x :: rest ∧ x.begin = b) ∧
      (∀ j0 b0, trk = some (j0, b0) → b < b0) ∧
      ∀ k c y rest, cs.get? k = some c → skipUntil e c = y :: rest →
        b ≤ y.begin ∧ (k < j - i → b < y.begin))


/-! ## Theorems: constructor -/

/-- For a file that opens, has an accepted size and reads, the first block of the
constructor is the chain of the four checks. -/
theorem readAndDetect_of_size (env : Env) (s : Song) (data : List UInt8)
    (hopen : env.fileData (s.path ++ s.filename) = some data)
    (hsize : 10 ≤ data.length ∧ data.length ≤ 100000)
    (hread : env.readFails (s.path ++ s.filename) = false) :
    readAndDetect env s =
      if env.smCheck data then .ok (FileType.SM, data)
      else if env.txtCheck data then .ok (FileType.TXT, data)
      else if env.iniCheck data then .ok (FileType.INI, data)
      else if env.xmlCheck data then .ok (FileType.XML, data)
      else .error (Thrown.runtime_error wrongHeader) := by
  have hs : ¬ (data.length < 10 ∨ data.length > 100000) := by omega
  simp [readAndDetect, hopen, hs, hread, wrongHeader]

/-- C1: for every file of accepted size that was read and every combination of results of
the four format checks, the constructor selects the first format in the order SM, TXT,
INI, XML whose check returns true and goes on with that type, and it fails with the
wrong-header error exactly when all four checks return false. -/
theorem constructor_selects_first_match (env : Env) (s : Song) (data : List UInt8)
    (hopen : env.fileData (s.path ++ s.filename) = some data)
    (hsize : 10 ≤ data.length ∧ data.length ≤ 100000)
    (hread : env.readFails (s.path ++ s.filename) = false) :
    (∀ t, firstMatch env data = some t →
        readAndDetect env s = .ok (t, data) ∧
        constructorBody env s = parseAs env s t data) ∧
    (firstMatch env data = none ↔
        env.smCheck data = false ∧ env.txtCheck data = false ∧
        env.iniCheck data = false ∧ env.xmlCheck data = false) ∧
    (readAndDetect env s = .error (Thrown.runtime_error wrongHeader) ↔
        env.smCheck data = false ∧ env.txtCheck data = false ∧
        env.iniCheck data = false ∧ env.xmlCheck data = false) ∧
    (env.smCheck data = false ∧ env.txtCheck data = false ∧
        env.iniCheck data = false ∧ env.xmlCheck data = false →
      SongParser.SongParser env s = (s, some { msg := wrongHeader, linenum := 0 })) := by
  have hd := readAndDetect_of_size env s data hopen hsize hread
  refine ⟨?_, ?_, ?_, ?_⟩
  · intro t ht
    have : readAndDetect env s = .ok (t, data) := by
      rw [hd]
      cases h1 : env.smCheck data <;> cases h2 : env.txtCheck data <;>
        cases h3 : env.iniCheck data <;> cases h4 : env.xmlCheck data <;>
        simp [firstMatch, checkOrder, checkOf, h1, h2, h3, h4] at ht ⊢ <;> exact ht
    exact ⟨this, by simp [constructorBody, this]⟩
  · cases h1 : env.smCheck data <;> cases h2 : env.txtCheck data <;>
      cases h3 : env.iniCheck data <;> cases h4 : env.xmlCheck data <;>
      simp [firstMatch, checkOrder, checkOf, h1, h2, h3, h4]
  · rw [hd]
    cases h1 : env.smCheck data <;> cases h2 : env.txtCheck data <;>
      cases h3 : env.iniCheck data <;> cases h4 : env.xmlCheck data <;>
      simp
  · rintro ⟨h1, h2, h3, h4⟩
    simp [SongParser.SongParser, constructorBody, hd, h1, h2, h3, h4, rethrow, SongParser.start]

/-- C1 at a 12-byte file that both the TXT and the INI check accept: TXT is selected. -/
theorem constructor_selects_first_match_witness :
    readAndDetect (exampleEnv (zeroBytes 12) false true true false) (exampleSong LoadStatus.EMPTY)
        = .ok (FileType.TXT, zeroBytes 12) ∧
      constructorBody (exampleEnv (zeroBytes 12) false true true false)
          (exampleSong LoadStatus.EMPTY)
        = parseAs (exampleEnv (zeroBytes 12) false true true false)
            (exampleSong LoadStatus.EMPTY) FileType.TXT (zeroBytes 12) :=
  (constructor_selects_first_match (exampleEnv (zeroBytes 12) false true true false)
    (exampleSong LoadStatus.EMPTY) (zeroBytes 12) rfl (by decide) rfl).1 FileType.TXT (by decide)

/-- C2 as stated fails: a file of exactly 10 bytes lies outside the interval (10, 100000],
yet the constructor does not reject it with the wrong-size error. -/
theorem wrong_size_claim_fails_at_ten :
    (exampleEnv (zeroBytes 10) true false false false).fileData
        ((exampleSong LoadStatus.EMPTY).path ++ (exampleSong LoadStatus.EMPTY).filename)
        = some (zeroBytes 10) ∧
    ¬ ((SongParser.SongParser (exampleEnv (zeroBytes 10) true false false false)
            (exampleSong LoadStatus.EMPTY)).2.map SongParserException.msg = some wrongSize ↔
        ((zeroBytes 10).length ≤ 10 ∨ 100000 < (zeroBytes 10).length)) := by
  decide

/-- C2 amended: for every file that opens, the size check rejects it with the wrong-size
error exactly when its size is below 10 or above 100000, and then the constructor fails
with that error and leaves the Song as it was, whatever the content and the checks. -/
theorem wrong_size_iff (env : Env) (s : Song) (data : List UInt8)
    (hopen : env.fileData (s.path ++ s.filename) = some data) :
    (readAndDetect env s = .error (Thrown.runtime_error wrongSize) ↔
        data.length < 10 ∨ 100000 < data.length) ∧
    (data.length < 10 ∨ 100000 < data.length →
      SongParser.SongParser env s = (s, some { msg := wrongSize, linenum := 0 })) := by
  constructor
  · constructor
    · intro h
      by_contra hs
      have hs2 : ¬ (data.length < 10 ∨ data.length > 100000) := hs
      simp only [readAndDetect, hopen, hs2, if_false] at h
      split_ifs at h <;> simp [wrongSize] at h
    · intro hs
      have hs2 : data.length < 10 ∨ data.length > 100000 := hs
      simp [readAndDetect, hopen, hs2, wrongSize]
  · intro hs
    have hs2 : data.length < 10 ∨ data.length > 100000 := hs
    simp [SongParser.SongParser, constructorBody, readAndDetect, hopen, hs2, wrongSize, rethrow,
      SongParser.start]

/-- C2 amended at a 5-byte file that all four checks would accept: rejected. -/
theorem wrong_size_iff_witness :
    SongParser.SongParser (exampleEnv (zeroBytes 5) true true true true)
        (exampleSong LoadStatus.EMPTY)
      = (exampleSong LoadStatus.EMPTY, some { msg := wrongSize, linenum := 0 }) :=
  (wrong_size_iff (exampleEnv (zeroBytes 5) true true true true) (exampleSong LoadStatus.EMPTY)
    (zeroBytes 5) rfl).2 (Or.inl (by decide))

theorem vocalsTogether_loadStatus (s : Song) :
    (vocalsTogether s).loadStatus = s.loadStatus := by
  unfold vocalsTogether
  split
  · rfl
  · dsimp only
    split_ifs <;> rfl

theorem beatLoop_loadStatus (env : Env) (fuel ts : Nat) (p : SongParser) :
    (beatLoop env fuel ts p).1.m_song.loadStatus = p.m_song.loadStatus := by
  induction fuel generalizing ts p with
  | zero => rfl
  | succ f ih =>
    unfold beatLoop
    split_ifs
    · split
      · rfl
      · rw [ih]
    · rfl

theorem finalize_loadStatus (env : Env) (p : SongParser) :
    (finalize env p).1.m_song.loadStatus = p.m_song.loadStatus := by
  unfold finalize
  simp only
  split_ifs
  · rw [beatLoop_loadStatus]; exact vocalsTogether_loadStatus _
  · exact vocalsTogether_loadStatus _

theorem parseBody_loadStatus (env : Env) (henv : env.KeepsLoadStatus) (type : FileType)
    (p : SongParser) :
    (parseBody env type p).1.m_song.loadStatus = p.m_song.loadStatus := by
  obtain ⟨-, -, -, -, h5, h6, h7, h8⟩ := henv
  unfold parseBody
  split_ifs
  · exact h5 p
  · exact h6 p
  · exact h7 p
  · exact h8 p
  · rfl

theorem parseHeader_loadStatus (env : Env) (henv : env.KeepsLoadStatus) (type : FileType)
    (p : SongParser) :
    (parseHeader env type p).1.m_song.loadStatus = p.m_song.loadStatus := by
  obtain ⟨h1, h2, h3, h4, -, -, -, -⟩ := henv
  unfold parseHeader
  split_ifs
  · exact h1 p
  · exact h2 p
  · exact h3 p
  · have := h4 p
    split
    · next p2 heq => rw [heq] at this; exact this
    · next p2 t heq => rw [heq] at this; exact this
  · rfl

theorem parseAndFinalize_success (env : Env) (type : FileType) (p : SongParser)
    (h : (parseAndFinalize env type p).2 = none) :
    (parseAndFinalize env type p).1.m_song.loadStatus = LoadStatus.FULL := by
  unfold parseAndFinalize at h ⊢
  split at h
  · simp at h
  · split at h
    · simp at h
    · next heq1 _ _ heq2 => simp only [heq1, heq2]

theorem parseAndFinalize_loadStatus (env : Env) (henv : env.KeepsLoadStatus) (type : FileType)
    (p : SongParser) :
    (parseAndFinalize env type p).1.m_song.loadStatus = p.m_song.loadStatus ∨
    (parseAndFinalize env type p).1.m_song.loadStatus = LoadStatus.FULL := by
  have hb := parseBody_loadStatus env henv type p
  unfold parseAndFinalize
  split
  · next p2 t heq => left; rw [heq] at hb; exact hb
  · next p2 heq =>
    rw [heq] at hb
    have hf := finalize_loadStatus env p2
    split
    · next p3 t heq2 => left; rw [heq2] at hf; exact hf.trans hb
    · right; rfl

theorem defaultPreview_loadStatus (type : FileType) (s : Song) :
    (defaultPreview type s).loadStatus = s.loadStatus := by
  unfold defaultPreview
  split <;> rfl

theorem removeBogus_loadStatus (env : Env) (s : Song) :
    (removeBogus env s).loadStatus = s.loadStatus := by
  unfold removeBogus
  dsimp only
  split_ifs <;> rfl

theorem guessFile_loadStatus (env : Env) (s : Song) (name : String) :
    (guessFile env s name).loadStatus = s.loadStatus := by
  unfold guessFile
  split_ifs <;> rfl

theorem foldl_guessFile_loadStatus (env : Env) (names : List String) (s : Song) :
    (names.foldl (guessFile env) s).loadStatus = s.loadStatus := by
  induction names generalizing s with
  | nil => rfl
  | cons n ns ih => rw [List.foldl_cons, ih, guessFile_loadStatus]

theorem guessFiles_loadStatus (env : Env) (s : Song) :
    (guessFiles env s).1.loadStatus = s.loadStatus := by
  unfold guessFiles
  split_ifs
  · split
    · rfl
    · exact foldl_guessFile_loadStatus env _ s
  · rfl

theorem parseAs_success (env : Env) (s : Song) (type : FileType) (data : List UInt8)
    (h : (parseAs env s type data).2 = none) :
    (parseAs env s type data).1.m_song.loadStatus = LoadStatus.FULL := by
  unfold parseAs at h ⊢
  dsimp only at h ⊢
  split_ifs at h ⊢
  · exact parseAndFinalize_success env type _ h
  · split at h
    · simp at h
    · split at h
      · simp at h
      · exact parseAndFinalize_success env type _ h

theorem parseAs_loadStatus (env : Env) (henv : env.KeepsLoadStatus) (s : Song) (type : FileType)
    (data : List UInt8) :
    (parseAs env s type data).1.m_song.loadStatus = s.loadStatus ∨
    (parseAs env s type data).1.m_song.loadStatus = LoadStatus.HEADER ∨
    (parseAs env s type data).1.m_song.loadStatus = LoadStatus.FULL := by
  unfold parseAs
  dsimp only
  split_ifs with hh
  · rcases parseAndFinalize_loadStatus env henv type
      { SongParser.start s with m_ss := env.convertToUTF8 data (s.path ++ s.filename) } with h | h
    · left; exact h
    · right; right; exact h
  · have hp := parseHeader_loadStatus env henv type
      { SongParser.start s with m_ss := env.convertToUTF8 data (s.path ++ s.filename) }
    split
    · next p2 t heq => left; rw [heq] at hp; exact hp
    · next p2 heq =>
      rw [heq] at hp
      have hg := guessFiles_loadStatus env (removeBogus env (defaultPreview type p2.m_song))
      rw [removeBogus_loadStatus, defaultPreview_loadStatus] at hg
      split
      · next s4 t heq2 => left; rw [heq2] at hg; exact hg.trans hp
      · next s4 heq2 =>
        rcases parseAndFinalize_loadStatus env henv type
          { p2 with m_song := { s4 with loadStatus := LoadStatus.HEADER } } with h | h
        · right; left; exact h
        · right; right; exact h

theorem success_is_full (env : Env) (s : Song)
    (hok : (SongParser.SongParser env s).2 = none) :
    (SongParser.SongParser env s).1.loadStatus = LoadStatus.FULL := by
  unfold SongParser.SongParser at hok ⊢
  split at hok
  · next p heq =>
    unfold constructorBody at heq
    split at heq
    · simp at heq
    · next type data _ =>
      have h2 : (parseAs env s type data).2 = none := by rw [heq]
      have := parseAs_success env s type data h2
      rw [heq] at this
      exact this
  · simp at hok

/-- C4: the code contradicts the two-pass claim. Every successful run of the constructor,
whatever the loadStatus of the Song before (EMPTY included), ends with loadStatus FULL and
not HEADER: after the header reader the constructor sets HEADER and goes on to the body
reader and the finalizer. -/
theorem constructor_success_is_full (env : Env) (s : Song)
    (hok : (SongParser.SongParser env s).2 = none) :
    (SongParser.SongParser env s).1.loadStatus = LoadStatus.FULL ∧
    (SongParser.SongParser env s).1.loadStatus ≠ LoadStatus.HEADER := by
  have h := success_is_full env s hok
  exact ⟨h, by rw [h]; decide⟩

/-- C4 at an EMPTY Song and a TXT file: the call succeeds, the body reader has stored its
notes, and the Song is FULL. -/
theorem constructor_success_is_full_witness :
    (exampleSong LoadStatus.EMPTY).loadStatus = LoadStatus.EMPTY ∧
    (SongParser.SongParser txtEnv (exampleSong LoadStatus.EMPTY)).2 = none ∧
    (SongParser.SongParser txtEnv (exampleSong LoadStatus.EMPTY)).1.vocalTracks.map
        (fun nt => (nt.1, nt.2.notes)) = [("VOCALS", [la 0 2, la 5 7])] ∧
    (SongParser.SongParser txtEnv (exampleSong LoadStatus.EMPTY)).1.loadStatus = LoadStatus.FULL :=
  ⟨by decide, by decide, by decide,
    (constructor_success_is_full txtEnv (exampleSong LoadStatus.EMPTY) (by decide)).1⟩

/-- C3 amended: when the readers leave loadStatus alone, a call on a Song that is EMPTY or
HEADER never leaves loadStatus earlier than it was; a call on a FULL Song leaves it FULL
when it succeeds, and otherwise leaves it FULL or HEADER. -/
theorem constructor_loadStatus (env : Env) (s : Song) (henv : env.KeepsLoadStatus) :
    (s.loadStatus ≠ LoadStatus.FULL →
      s.loadStatus.rank ≤ (SongParser.SongParser env s).1.loadStatus.rank) ∧
    (s.loadStatus = LoadStatus.FULL → (SongParser.SongParser env s).2 = none →
      (SongParser.SongParser env s).1.loadStatus = LoadStatus.FULL) ∧
    (s.loadStatus = LoadStatus.FULL →
      (SongParser.SongParser env s).1.loadStatus = LoadStatus.FULL ∨
      (SongParser.SongParser env s).1.loadStatus = LoadStatus.HEADER) := by
  have key : (SongParser.SongParser env s).1.loadStatus = s.loadStatus ∨
      (SongParser.SongParser env s).1.loadStatus = LoadStatus.HEADER ∨
      (SongParser.SongParser env s).1.loadStatus = LoadStatus.FULL := by
    have hc : (SongParser.SongParser env s).1 = (constructorBody env s).1.m_song := by
      unfold SongParser.SongParser
      split <;> next heq => rw [heq]
    rw [hc]
    unfold constructorBody
    split
    · left; rfl
    · exact parseAs_loadStatus env henv s _ _
  refine ⟨?_, ?_, ?_⟩
  · intro hne
    rcases key with h | h | h
    · rw [h]
    · rw [h]; cases hs : s.loadStatus <;> simp_all [LoadStatus.rank]
    · rw [h]; cases hs : s.loadStatus <;> simp_all [LoadStatus.rank]
  · intro _ hok
    exact success_is_full env s hok
  · intro hfull
    rcases key with h | h | h
    · left; rw [h, hfull]
    · right; exact h
    · left; exact h

theorem exampleEnv_keeps (data : List UInt8) (a b c d : Bool) :
    (exampleEnv data a b c d).KeepsLoadStatus :=
  ⟨fun _ => rfl, fun _ => rfl, fun _ => rfl, fun _ => rfl,
   fun _ => rfl, fun _ => rfl, fun _ => rfl, fun _ => rfl⟩

theorem bodyFailsEnv_keeps : bodyFailsEnv.KeepsLoadStatus :=
  ⟨fun _ => rfl, fun _ => rfl, fun _ => rfl, fun _ => rfl,
   fun _ => rfl, fun _ => rfl, fun _ => rfl, fun _ => rfl⟩

/-- C3 amended at a HEADER Song whose body reader throws: the Song stays HEADER. -/
theorem constructor_loadStatus_witness :
    (exampleSong LoadStatus.HEADER).loadStatus.rank ≤
      (SongParser.SongParser bodyFailsEnv (exampleSong LoadStatus.HEADER)).1.loadStatus.rank :=
  (constructor_loadStatus bodyFailsEnv (exampleSong LoadStatus.HEADER) bodyFailsEnv_keeps).1
    (by decide)

/-- C3 as stated fails: on a FULL Song whose body reader throws, the constructor has
already assigned HEADER, so loadStatus ends earlier than it was. -/
theorem loadStatus_regresses_from_full :
    bodyFailsEnv.KeepsLoadStatus ∧
    (exampleSong LoadStatus.FULL).loadStatus = LoadStatus.FULL ∧
    (SongParser.SongParser bodyFailsEnv (exampleSong LoadStatus.FULL)).1.loadStatus
      = LoadStatus.HEADER ∧
    ¬ ((exampleSong LoadStatus.FULL).loadStatus.rank ≤
      (SongParser.SongParser bodyFailsEnv (exampleSong LoadStatus.FULL)).1.loadStatus.rank) :=
  ⟨bodyFailsEnv_keeps, by decide, by decide, by decide⟩

/-! ## Theorems: track merger -/

theorem skipUntil_sublist (e : ℚ) (c : Notes) : List.Sublist (skipUntil e c) c := by
  induction c with
  | nil => exact List.Sublist.refl _
  | cons x xs ih =>
    unfold skipUntil
    split_ifs
    · exact List.Sublist.cons _ ih
    · exact List.Sublist.refl _

theorem skipUntil_head (e : ℚ) (c : Notes) (x : Note) (rest : Notes)
    (h : skipUntil e c = x :: rest) : e ≤ x.begin := by
  induction c with
  | nil => simp [skipUntil] at h
  | cons y ys ih =>
    unfold skipUntil at h
    split_ifs at h with hlt
    · exact ih h
    · simp only [List.cons.injEq] at h
      rw [← h.1]
      exact not_lt.mp hlt

theorem scanTracks_fst (e : ℚ) (cs : List Notes) (i : Nat) (trk : Option (Nat × ℚ)) :
    (scanTracks e cs i trk).1 = cs.map (skipUntil e) := by
  induction cs generalizing i trk with
  | nil => rfl
  | cons c cs ih =>
    unfold scanTracks
    simp only [List.map_cons, ih]

theorem selected_cons_new (e : ℚ) (c : Notes) (cs : List Notes) (i : Nat)
    (trk sel : Option (Nat × ℚ)) (x : Note) (rest0 : Notes)
    (hc : skipUntil e c = x :: rest0)
    (hnew : ∀ j0 b0, trk = some (j0, b0) → x.begin < b0)
    (h : Selected e cs (i + 1) (some (i, x.begin)) sel) :
    Selected e (c :: cs) i trk sel := by
  cases sel with
  | none => exact absurd h.1 (by simp)
  | some jb =>
    obtain ⟨j, b⟩ := jb
    rcases h with ⟨h1, h2⟩ | ⟨h1, ⟨c', y, rest, h2, h3, h4⟩, h5, h6⟩
    · simp only [Option.some.injEq, Prod.mk.injEq] at h1
      obtain ⟨rfl, rfl⟩ := h1
      right
      refine ⟨le_refl _, ⟨c, x, rest0, by simp, hc, rfl⟩, hnew, ?_⟩
      intro k c'' y rest' hk hs
      cases k with
      | zero =>
        simp only [List.get?_cons_zero, Option.some.injEq] at hk
        subst hk
        rw [hc] at hs
        simp only [List.cons.injEq] at hs
        rw [← hs.1]
        exact ⟨le_refl _, fun hlt => absurd hlt (by omega)⟩
      | succ k =>
        exact ⟨h2 k c'' y rest' (by simpa using hk) hs, fun hlt => absurd hlt (by omega)⟩
    · have hb : b < x.begin := h5 i x.begin rfl
      right
      refine ⟨by omega, ⟨c', y, rest, ?_, h3, h4⟩, ?_, ?_⟩
      · have : j - i = (j - (i + 1)) + 1 := by omega
        rw [this, List.get?_cons_succ]
        exact h2
      · intro j0 b0 ht
        exact lt_trans hb (hnew j0 b0 ht)
      · intro k c'' z rest' hk hs
        cases k with
        | zero =>
          simp only [List.get?_cons_zero, Option.some.injEq] at hk
          subst hk
          rw [hc] at hs
          simp only [List.cons.injEq] at hs
          rw [← hs.1]
          exact ⟨le_of_lt hb, fun _ => hb⟩
        | succ k =>
          have := h6 k c'' z rest' (by simpa using hk) hs
          exact ⟨this.1, fun hlt => this.2 (by omega)⟩

theorem selected_cons_keep (e : ℚ) (c : Notes) (cs : List Notes) (i : Nat)
    (sel : Option (Nat × ℚ)) (j0 : Nat) (b0 : ℚ) (x : Note) (rest0 : Notes)
    (hc : skipUntil e c = x :: rest0)
    (hkeep : ¬ x.begin < b0)
    (h : Selected e cs (i + 1) (some (j0, b0)) sel) :
    Selected e (c :: cs) i (some (j0, b0)) sel := by
  have hle : b0 ≤ x.begin := not_lt.mp hkeep
  cases sel with
  | none => exact absurd h.1 (by simp)
  | some jb =>
    obtain ⟨j, b⟩ := jb
    rcases h with ⟨h1, h2⟩ | ⟨h1, ⟨c', y, rest, h2, h3, h4⟩, h5, h6⟩
    · left
      refine ⟨h1, ?_⟩
      simp only [Option.some.injEq, Prod.mk.injEq] at h1
      obtain ⟨rfl, rfl⟩ := h1
      intro k c'' y rest' hk hs
      cases k with
      | zero =>
        simp only [List.get?_cons_zero, Option.some.injEq] at hk
        subst hk
        rw [hc] at hs
        simp only [List.cons.injEq] at hs
        rw [← hs.1]
        exact hle
      | succ k => exact h2 k c'' y rest' (by simpa using hk) hs
    · have hb : b < b0 := h5 j0 b0 rfl
      right
      refine ⟨by omega, ⟨c', y, rest, ?_, h3, h4⟩, h5, ?_⟩
      · have : j - i = (j - (i + 1)) + 1 := by omega
        rw [this, List.get?_cons_succ]
        exact h2
      · intro k c'' z rest' hk hs
        cases k with
        | zero =>
          simp only [List.get?_cons_zero, Option.some.injEq] at hk
          subst hk
          rw [hc] at hs
          simp only [List.cons.injEq] at hs
          rw [← hs.1]
          exact ⟨le_of_lt (lt_of_lt_of_le hb hle), fun _ => lt_of_lt_of_le hb hle⟩
        | succ k =>
          have := h6 k c'' z rest' (by simpa using hk) hs
          exact ⟨this.1, fun hlt => this.2 (by omega)⟩

/-- The selection that scanTracks returns is the first track whose current note, after
the skipping, starts earliest. -/
theorem scanTracks_snd (e : ℚ) (cs : List Notes) (i : Nat) (trk : Option (Nat × ℚ)) :
    Selected e cs i trk (scanTracks e cs i trk).2 := by
  induction cs generalizing i trk with
  | nil =>
    unfold scanTracks
    cases trk with
    | none => simp [Selected]
    | some jb =>
      obtain ⟨j, b⟩ := jb
      simp [Selected]
  | cons c cs ih =>
    unfold scanTracks
    dsimp only
    cases hc : skipUntil e c with
    | nil =>
      dsimp only
      have h := ih (i + 1) trk
      cases hr : (scanTracks e cs (i + 1) trk).2 with
      | none =>
        rw [hr] at h
        obtain ⟨h1, h2⟩ := h
        refine ⟨h1, ?_⟩
        intro c' hc'
        rcases List.mem_cons.mp hc' with rfl | hm
        · exact hc
        · exact h2 c' hm
      | some jb =>
        obtain ⟨j, b⟩ := jb
        rw [hr] at h
        rcases h with ⟨h1, h2⟩ | ⟨h1, ⟨c', x, rest, h2, h3, h4⟩, h5, h6⟩
        · left
          refine ⟨h1, ?_⟩
          intro k c' y rest hk hs
          cases k with
          | zero =>
            simp only [List.get?_cons_zero, Option.some.injEq] at hk
            subst hk
            rw [hc] at hs
            cases hs
          | succ k => exact h2 k c' y rest (by simpa using hk) hs
        · right
          refine ⟨by omega, ⟨c', x, rest, ?_, h3, h4⟩, h5, ?_⟩
          · have : j - i = (j - (i + 1)) + 1 := by omega
            rw [this, List.get?_cons_succ]
            exact h2
          · intro k c'' y rest' hk hs
            cases k with
            | zero =>
              simp only [List.get?_cons_zero, Option.some.injEq] at hk
              subst hk
              rw [hc] at hs
              cases hs
            | succ k =>
              have := h6 k c'' y rest' (by simpa using hk) hs
              exact ⟨this.1, fun hlt => this.2 (by omega)⟩
    | cons x rest0 =>
      dsimp only
      cases trk with
      | none =>
        dsimp only
        exact selected_cons_new e c cs i none _ x rest0 hc (by simp) (ih (i + 1) _)
      | some jb0 =>
        obtain ⟨j0, b0⟩ := jb0
        dsimp only
        split_ifs with hlt
        · refine selected_cons_new e c cs i _ _ x rest0 hc ?_ (ih (i + 1) _)
          intro j1 b1 h1
          simp only [Option.some.injEq, Prod.mk.injEq] at h1
          rw [← h1.2]
          exact hlt
        · exact selected_cons_keep e c cs i _ j0 b0 x rest0 hc hlt (ih (i + 1) _)

theorem mergeLoop_head (f : Nat) (cs : List Notes) (trk : Nat) (m : Note) (l : Notes)
    (h : mergeLoop f cs trk = m :: l) : ∃ rest, cs.get? trk = some (m :: rest) := by
  cases f with
  | zero => simp [mergeLoop] at h
  | succ f =>
    unfold mergeLoop at h
    split at h
    · next n rest heq =>
      refine ⟨rest, ?_⟩
      dsimp only at h
      split at h
      · simp only [List.cons.injEq] at h
        rw [heq, ← h.1]
      · simp only [List.cons.injEq] at h
        rw [heq, ← h.1]
    · simp at h

theorem mem_of_get?_set (cs : List Notes) (trk : Nat) (n : Note) (rest : Notes)
    (h : cs.get? trk = some (n :: rest)) (c : Notes) (hc : c ∈ cs.set trk rest) (x : Note)
    (hx : x ∈ c) : ∃ c0 ∈ cs, x ∈ c0 := by
  rcases List.mem_or_eq_of_mem_set hc with hm | he
  · exact ⟨c, hm, hx⟩
  · subst he
    exact ⟨n :: c, List.get?_mem h, List.mem_cons_of_mem _ hx⟩

theorem mergeLoop_mem (f : Nat) (cs : List Notes) (trk : Nat) (x : Note)
    (h : x ∈ mergeLoop f cs trk) : ∃ c ∈ cs, x ∈ c := by
  induction f generalizing cs trk with
  | zero => simp [mergeLoop] at h
  | succ f ih =>
    unfold mergeLoop at h
    split at h
    · next n rest heq =>
      have hn : ∃ c ∈ cs, n ∈ c := ⟨n :: rest, List.get?_mem heq, List.mem_cons_self _ _⟩
      dsimp only at h
      split at h
      · simp only [List.mem_singleton] at h
        rw [h]; exact hn
      · next j _ _ =>
        rcases List.mem_cons.mp h with rfl | hm
        · exact hn
        · obtain ⟨c, hc, hxc⟩ := ih _ _ hm
          rw [scanTracks_fst] at hc
          obtain ⟨c1, hc1, rfl⟩ := List.mem_map.mp hc
          exact mem_of_get?_set cs trk n rest heq c1 hc1 x ((skipUntil_sublist _ c1).subset hxc)
    · simp at h

theorem mergeLoop_chain (f : Nat) (cs : List Notes) (trk : Nat) :
    List.Chain' (fun p q : Note => p.end_ ≤ q.begin) (mergeLoop f cs trk) := by
  induction f generalizing cs trk with
  | zero => simp [mergeLoop]
  | succ f ih =>
    unfold mergeLoop
    split
    · next n rest heq =>
      dsimp only
      split
      · simp
      · next j _ _ =>
        rw [List.chain'_cons']
        refine ⟨?_, ih _ _⟩
        intro m hm
        cases hl : mergeLoop f (scanTracks n.end_ (cs.set trk rest) 0 none).1 j with
        | nil => rw [hl] at hm; simp at hm
        | cons m0 l =>
          rw [hl] at hm
          simp only [List.head?_cons, Option.mem_def, Option.some.injEq] at hm
          subst hm
          obtain ⟨rest2, hget⟩ := mergeLoop_head f _ j m0 l hl
          rw [scanTracks_fst] at hget
          have hmem := List.get?_mem hget
          obtain ⟨c1, _, hc1⟩ := List.mem_map.mp hmem
          exact skipUntil_head _ c1 m0 rest2 hc1
    · simp

theorem remaining_set (cs : List Notes) (trk : Nat) (n : Note) (rest : Notes)
    (h : cs.get? trk = some (n :: rest)) :
    remaining (cs.set trk rest) + 1 = remaining cs := by
  induction cs generalizing trk with
  | nil => simp at h
  | cons c cs ih =>
    cases trk with
    | zero =>
      simp only [List.get?_cons_zero, Option.some.injEq] at h
      subst h
      simp [remaining]
      omega
    | succ k =>
      have := ih k (by simpa using h)
      simp only [remaining, List.set_cons_succ, List.map_cons, List.sum_cons] at this ⊢
      omega

theorem remaining_skip (e : ℚ) (cs : List Notes) :
    remaining (cs.map (skipUntil e)) ≤ remaining cs := by
  induction cs with
  | nil => simp
  | cons c cs ih =>
    have := (skipUntil_sublist e c).length_le
    simp only [remaining, List.map_cons, List.sum_cons] at ih ⊢
    omega

theorem mergeLoop_done (f : Nat) (cs : List Notes) (trk : Nat) (h : remaining cs = 0) :
    mergeLoop f cs trk = [] := by
  cases f with
  | zero => rfl
  | succ f =>
    unfold mergeLoop
    split
    · next n rest heq =>
      have := remaining_set cs trk n rest heq
      omega
    · rfl

/-- Fuel equal to the number of remaining notes is enough: more fuel gives the same
notes, so the loop of mergeLoop has left by itself. -/
theorem mergeLoop_fuel (f g : Nat) (cs : List Notes) (trk : Nat)
    (hf : remaining cs ≤ f) (hg : remaining cs ≤ g) :
    mergeLoop f cs trk = mergeLoop g cs trk := by
  induction f generalizing g cs trk with
  | zero =>
    have h0 : remaining cs = 0 := by omega
    rw [mergeLoop_done 0 cs trk h0, mergeLoop_done g cs trk h0]
  | succ f ih =>
    cases g with
    | zero =>
      have h0 : remaining cs = 0 := by omega
      rw [mergeLoop_done (f + 1) cs trk h0, mergeLoop_done 0 cs trk h0]
    | succ g =>
      unfold mergeLoop
      split
      · next n rest heq =>
        dsimp only
        split
        · rfl
        · next j _ _ =>
          have h1 := remaining_set cs trk n rest heq
          have h2 := remaining_skip n.end_ (cs.set trk rest)
          rw [← scanTracks_fst n.end_ (cs.set trk rest) 0 none] at h2
          rw [ih g _ j (by omega) (by omega)]
      · rfl

theorem mergeLoop_ne_nil (f : Nat) (cs : List Notes) (trk : Nat) (n : Note) (rest : Notes)
    (h : cs.get? trk = some (n :: rest)) : mergeLoop (f + 1) cs trk ≠ [] := by
  unfold mergeLoop
  rw [h]
  dsimp only
  split <;> simp

theorem findTrack_swapNotes (name : String) (notes : Notes) (vt : VocalTracks) (t : VocalTrack)
    (h : findTrack name vt = some t) :
    findTrack name (swapNotes name notes vt) = some { t with notes := notes } := by
  induction vt with
  | nil => simp [findTrack] at h
  | cons nt rest ih =>
    unfold findTrack at h
    unfold swapNotes
    split_ifs at h ⊢ with hn
    · simp only [Option.some.injEq] at h
      subst h
      simp [findTrack, hn]
    · simp only [findTrack, hn, if_false]
      exact ih h

theorem swapNotes_keys (name : String) (notes : Notes) (vt : VocalTracks) :
    (swapNotes name notes vt).map Prod.fst = vt.map Prod.fst := by
  induction vt with
  | nil => rfl
  | cons nt rest ih =>
    unfold swapNotes
    split_ifs
    · simp
    · simp [ih]

theorem usableTracks_ne_nil (vt : VocalTracks) (h : ∃ nt ∈ vt, nt.2.notes ≠ []) :
    usableTracks vt ≠ [] := by
  obtain ⟨nt, hm, hne⟩ := h
  have : nt.2.notes ∈ usableTracks vt := by
    unfold usableTracks
    rw [List.mem_filter]
    refine ⟨List.mem_map.mpr ⟨nt, hm, rfl⟩, ?_⟩
    cases hn : nt.2.notes with
    | nil => exact absurd hn hne
    | cons a l => rfl
  exact List.ne_nil_of_mem this

theorem usableTracks_head (vt : VocalTracks) (h : usableTracks vt ≠ []) :
    ∃ n rest, (usableTracks vt).get? 0 = some (n :: rest) ∧ 0 < remaining (usableTracks vt) := by
  cases hu : usableTracks vt with
  | nil => exact absurd hu h
  | cons c cs =>
    have hc : c ∈ usableTracks vt := by rw [hu]; exact List.mem_cons_self _ _
    unfold usableTracks at hc
    rw [List.mem_filter] at hc
    cases c with
    | nil => simp at hc
    | cons n rest =>
      refine ⟨n, rest, by simp, ?_⟩
      simp [remaining]

/-- What vocalsTogether does when the Together track exists and is empty. -/
theorem vocalsTogether_empty (s : Song) (t : VocalTrack)
    (ht : findTrack "Together" s.vocalTracks = some t) (hempty : t.notes = []) :
    vocalsTogether s =
      if (usableTracks s.vocalTracks).isEmpty then s
      else
        { s with
          vocalTracks :=
            swapNotes "Together"
              (mergeLoop (remaining (usableTracks s.vocalTracks)) (usableTracks s.vocalTracks) 0)
              s.vocalTracks } := by
  unfold vocalsTogether
  rw [ht]
  simp [hempty]

theorem vocalsTogether_merged_ne_nil (vt : VocalTracks) (h : usableTracks vt ≠ []) :
    mergeLoop (remaining (usableTracks vt)) (usableTracks vt) 0 ≠ [] := by
  obtain ⟨n, rest, hget, hpos⟩ := usableTracks_head vt h
  obtain ⟨k, hk⟩ : ∃ k, remaining (usableTracks vt) = k + 1 := ⟨_, (Nat.succ_pred_eq_of_pos hpos).symm⟩
  rw [hk]
  exact mergeLoop_ne_nil k _ 0 n rest hget

theorem mem_usableTracks (vt : VocalTracks) (c : Notes) (h : c ∈ usableTracks vt) :
    ∃ nt ∈ vt, nt.2.notes = c := by
  unfold usableTracks at h
  rw [List.mem_filter] at h
  obtain ⟨nt, hm, he⟩ := List.mem_map.mp h.1
  exact ⟨nt, hm, he⟩

/-- C5 as stated fails: a Song with two tracks that have notes and no track named
Together has no track named Together after vocalsTogether either. -/
theorem no_together_track_is_added :
    (∃ nt ∈ noTogetherSong.vocalTracks, nt.2.notes ≠ []) ∧
    findTrack "Together" noTogetherSong.vocalTracks = none ∧
    findTrack "Together" (vocalsTogether noTogetherSong).vocalTracks = none := by
  decide

/-- C5 amended: vocalsTogether never adds a track (the track names stay as they are, and a
Song without a track named Together is left unchanged); for every Song that has at least
one vocal track with notes and an empty track named Together, it fills that track, whose
note sequence is then non-empty. -/
theorem vocalsTogether_fills_together (s : Song) :
    (vocalsTogether s).vocalTracks.map Prod.fst = s.vocalTracks.map Prod.fst ∧
    (findTrack "Together" s.vocalTracks = none → vocalsTogether s = s) ∧
    (∀ t, findTrack "Together" s.vocalTracks = some t → t.notes = [] →
      (∃ nt ∈ s.vocalTracks, nt.2.notes ≠ []) →
      ∃ t2, findTrack "Together" (vocalsTogether s).vocalTracks = some t2 ∧ t2.notes ≠ []) := by
  refine ⟨?_, ?_, ?_⟩
  · unfold vocalsTogether
    split
    · rfl
    · dsimp only
      split_ifs
      · rfl
      · rfl
      · exact swapNotes_keys _ _ _
  · intro h
    unfold vocalsTogether
    rw [h]
  · intro t ht hempty hex
    have hne := usableTracks_ne_nil s.vocalTracks hex
    have hne2 : (usableTracks s.vocalTracks).isEmpty = false := by
      cases hu : usableTracks s.vocalTracks with
      | nil => exact absurd hu hne
      | cons _ _ => rfl
    rw [vocalsTogether_empty s t ht hempty, hne2]
    refine ⟨_, findTrack_swapNotes _ _ _ t ht, ?_⟩
    exact vocalsTogether_merged_ne_nil s.vocalTracks hne

/-- C5 amended at the two-singer example: the empty Together track is filled. -/
theorem vocalsTogether_fills_together_witness :
    ∃ t2, findTrack "Together" (vocalsTogether duetSong).vocalTracks = some t2 ∧ t2.notes ≠ [] :=
  (vocalsTogether_fills_together duetSong).2.2 (trackOf []) (by decide) rfl (by decide)

/-- C6: the code misses the first note. With A = [(5,7)] and B = [(0,2)], both ordered, the
merge starts with the first note of the first track, (5,7), although the first note of B
starts earlier, and B contributes nothing to the Together track. -/
theorem together_starts_with_front_track :
    (findTrack "Together" lateFirstSong.vocalTracks).map VocalTrack.notes = some [] ∧
    (findTrack "A" lateFirstSong.vocalTracks).map VocalTrack.notes = some [la 5 7] ∧
    (findTrack "B" lateFirstSong.vocalTracks).map VocalTrack.notes = some [la 0 2] ∧
    (findTrack "Together" (vocalsTogether lateFirstSong).vocalTracks).map VocalTrack.notes
      = some [la 5 7] ∧
    (la 0 2).begin < (la 5 7).begin := by
  decide

/-- C7: for every Song with an empty Together track, the Together track that vocalsTogether
produces holds only notes of source tracks, and each of its notes begins at or after the end
of the note before it; in every turn the track selected is the first one, in iteration
order, whose current note starts earliest, so a tie on equal start goes to the track
inspected first. -/
theorem together_has_no_overlap (s : Song) (t : VocalTrack)
    (ht : findTrack "Together" s.vocalTracks = some t) (hempty : t.notes = []) :
    (∃ t2, findTrack "Together" (vocalsTogether s).vocalTracks = some t2 ∧
      (∀ n ∈ t2.notes, ∃ nt ∈ s.vocalTracks, n ∈ nt.2.notes) ∧
      List.Chain' (fun p q : Note => p.end_ ≤ q.begin) t2.notes) ∧
    (∀ (e : ℚ) (cs : List Notes) (j : Nat) (b : ℚ),
      (scanTracks e cs 0 none).2 = some (j, b) →
      (∃ c x rest, cs.get? j = some c ∧ skipUntil e c = x :: rest ∧ x.begin = b ∧ e ≤ b) ∧
      ∀ k c y rest, cs.get? k = some c → skipUntil e c = y :: rest →
        b ≤ y.begin ∧ (k < j → b < y.begin)) := by
  constructor
  · rw [vocalsTogether_empty s t ht hempty]
    split_ifs
    · refine ⟨t, ht, ?_, ?_⟩
      · intro n hn; rw [hempty] at hn; simp at hn
      · rw [hempty]; simp
    · refine ⟨_, findTrack_swapNotes _ _ _ t ht, ?_, ?_⟩
      · intro n hn
        obtain ⟨c, hc, hnc⟩ := mergeLoop_mem _ _ _ n hn
        obtain ⟨nt, hm, rfl⟩ := mem_usableTracks _ c hc
        exact ⟨nt, hm, hnc⟩
      · exact mergeLoop_chain _ _ _
  · intro e cs j b h
    have hs := scanTracks_snd e cs 0 none
    rw [h] at hs
    rcases hs with ⟨h1, _⟩ | ⟨_, ⟨c, x, rest, h2, h3, h4⟩, _, h6⟩
    · simp at h1
    · refine ⟨⟨c, x, rest, by simpa using h2, h3, h4, ?_⟩, ?_⟩
      · rw [← h4]; exact skipUntil_head e c x rest h3
      · intro k c2 y rest2 hk hs2
        have := h6 k c2 y rest2 hk hs2
        exact ⟨this.1, fun hlt => this.2 (by simpa using hlt)⟩

/-- C7 at the example of the spec: A = [(0,2),(5,7)] and B = [(1,3),(5,7)] give
Together = [(0,2),(5,7)]. -/
theorem together_has_no_overlap_witness :
    (findTrack "Together" (vocalsTogether duetSong).vocalTracks).map VocalTrack.notes
      = some [la 0 2, la 5 7] ∧
    ∃ t2, findTrack "Together" (vocalsTogether duetSong).vocalTracks = some t2 ∧
      (∀ n ∈ t2.notes, ∃ nt ∈ duetSong.vocalTracks, n ∈ nt.2.notes) ∧
      List.Chain' (fun p q : Note => p.end_ ≤ q.begin) t2.notes :=
  ⟨by decide, (together_has_no_overlap duetSong (trackOf []) (by decide) rfl).1⟩

/-- C8: vocalsTogether is idempotent: for every Song a second run leaves the Song, and so
every vocal track, exactly as the first run left it; and a run on a Song whose Together
track already has notes changes nothing. -/
theorem vocalsTogether_idempotent (s : Song) :
    vocalsTogether (vocalsTogether s) = vocalsTogether s ∧
    (∀ t, findTrack "Together" s.vocalTracks = some t → t.notes ≠ [] → vocalsTogether s = s) := by
  have hfull : ∀ (s0 : Song) (t : VocalTrack), findTrack "Together" s0.vocalTracks = some t →
      t.notes ≠ [] → vocalsTogether s0 = s0 := by
    intro s0 t ht hne
    unfold vocalsTogether
    rw [ht]
    cases hn : t.notes with
    | nil => exact absurd hn hne
    | cons a l => simp [hn]
  refine ⟨?_, hfull s⟩
  cases hf : findTrack "Together" s.vocalTracks with
  | none =>
    have : vocalsTogether s = s := by unfold vocalsTogether; rw [hf]
    rw [this, this]
  | some t =>
    by_cases hempty : t.notes = []
    · rw [vocalsTogether_empty s t hf hempty]
      split_ifs with hu
      · rw [vocalsTogether_empty s t hf hempty, if_pos hu]
      · have hne : usableTracks s.vocalTracks ≠ [] := by
          intro h; rw [h] at hu; exact hu rfl
        exact hfull _ _ (findTrack_swapNotes _ _ _ t hf)
          (vocalsTogether_merged_ne_nil s.vocalTracks hne)
    · rw [hfull s t hf hempty, hfull s t hf hempty]

/-- C8 at the two-singer example, where the second run changes nothing, and at a Song
whose Together track has a note, which the run leaves as it is. -/
theorem vocalsTogether_idempotent_witness :
    vocalsTogether (vocalsTogether duetSong) = vocalsTogether duetSong ∧
    vocalsTogether filledSong = filledSong :=
  ⟨(vocalsTogether_idempotent duetSong).1,
    (vocalsTogether_idempotent filledSong).2 (trackOf [la 0 2]) (by decide) (by decide)⟩

/-! ## Theorems: finalizer -/

theorem removeEmptySentences_eq_aux (notes : Notes) (pred : Option Note) (lastType : NoteType)
    (h : lastType = NoteType.SLEEP ↔ pred.map Note.type = some NoteType.SLEEP) :
    removeEmptySentences lastType notes =
      ((notes.zip (pred :: notes.map some)).filter (fun np => !followsSleep np.2 np.1)).map
        Prod.fst := by
  induction notes generalizing pred lastType with
  | nil => simp [removeEmptySentences]
  | cons n rest ih =>
    have ih2 := ih (some n) n.type (by simp)
    unfold removeEmptySentences
    simp only [List.map_cons, List.zip_cons_cons, List.filter_cons]
    by_cases hs : n.type = NoteType.SLEEP ∧ lastType = NoteType.SLEEP
    · have hf : followsSleep pred n = true := by
        simp [followsSleep, hs.1, h.mp hs.2]
      simp only [hs, and_self, if_true, hf, Bool.not_true, Bool.false_eq_true, if_false]
      rw [hs.1] at ih2
      exact ih2
    · have hf : followsSleep pred n = false := by
        simp only [followsSleep, Bool.and_eq_false_iff, decide_eq_false_iff_not]
        by_cases h1 : n.type = NoteType.SLEEP
        · right
          exact fun hp => hs ⟨h1, h.mpr hp⟩
        · left; exact h1
      simp only [hs, if_false, hf, Bool.not_false, if_true, List.map_cons]
      rw [ih2]

theorem removeEmptySentences_chain (notes : Notes) (lastType : NoteType) :
    List.Chain' (fun a b : Note => ¬ (a.type = NoteType.SLEEP ∧ b.type = NoteType.SLEEP))
        (removeEmptySentences lastType notes) ∧
    ∀ x ∈ (removeEmptySentences lastType notes).head?,
      ¬ (lastType = NoteType.SLEEP ∧ x.type = NoteType.SLEEP) := by
  induction notes generalizing lastType with
  | nil => simp [removeEmptySentences]
  | cons n rest ih =>
    have ih2 := ih n.type
    unfold removeEmptySentences
    split_ifs with hs
    · refine ⟨ih2.1, ?_⟩
      intro x hx
      have := ih2.2 x hx
      rw [hs.1] at this
      rw [hs.2]
      exact this
    · refine ⟨?_, ?_⟩
      · rw [List.chain'_cons']
        exact ⟨ih2.2, ih2.1⟩
      · intro x hx
        simp only [List.head?_cons, Option.mem_def, Option.some.injEq] at hx
        subst hx
        exact fun hc => hs ⟨hc.2, hc.1⟩

theorem removeEmptySentences_sublist (notes : Notes) (lastType : NoteType) :
    List.Sublist (removeEmptySentences lastType notes) notes := by
  induction notes generalizing lastType with
  | nil => simp [removeEmptySentences]
  | cons n rest ih =>
    unfold removeEmptySentences
    split_ifs
    · exact List.Sublist.cons _ (ih _)
    · exact List.Sublist.cons₂ _ (ih _)

theorem removeEmptySentences_keeps (notes : Notes) (lastType : NoteType) :
    (removeEmptySentences lastType notes).filter (fun n => n.type ≠ NoteType.SLEEP) =
      notes.filter (fun n => n.type ≠ NoteType.SLEEP) := by
  induction notes generalizing lastType with
  | nil => simp [removeEmptySentences]
  | cons n rest ih =>
    unfold removeEmptySentences
    split_ifs with hs
    · rw [ih, List.filter_cons]
      simp [hs.1]
    · rw [List.filter_cons, List.filter_cons, ih]

/-- C9: for every vocal track, the notes after the empty-sentence removal of finalize are the
input notes with exactly those SLEEP notes removed that immediately follow another SLEEP
note in the input; the result is a subsequence of the input, keeps every non-SLEEP note in
order and unmodified, keeps a SLEEP note that opens the track, and never holds two adjacent
SLEEP notes; [SLEEP(0,1), SLEEP(1,2), NORMAL(2,3)] becomes [SLEEP(0,1), NORMAL(2,3)]. -/
theorem removeEmptySentences_spec (notes : Notes) :
    removeEmptySentences NoteType.NORMAL notes = withoutRepeatedSleeps notes ∧
    List.Sublist (removeEmptySentences NoteType.NORMAL notes) notes ∧
    (removeEmptySentences NoteType.NORMAL notes).filter (fun n => n.type ≠ NoteType.SLEEP) =
      notes.filter (fun n => n.type ≠ NoteType.SLEEP) ∧
    (removeEmptySentences NoteType.NORMAL notes).head? = notes.head? ∧
    List.Chain' (fun a b : Note => ¬ (a.type = NoteType.SLEEP ∧ b.type = NoteType.SLEEP))
      (removeEmptySentences NoteType.NORMAL notes) ∧
    removeEmptySentences NoteType.NORMAL [sleep 0 1, sleep 1 2, la 2 3] = [sleep 0 1, la 2 3] ∧
    (finalizeTrack (fun _ => 1) (trackOf [sleep 0 1, sleep 1 2, la 2 3])).notes
      = [sleep 0 1, la 2 3] := by
  refine ⟨?_, removeEmptySentences_sublist _ _, removeEmptySentences_keeps _ _, ?_,
    (removeEmptySentences_chain _ _).1, by decide, by decide⟩
  · exact removeEmptySentences_eq_aux notes none NoteType.NORMAL (by simp)
  · cases notes with
    | nil => rfl
    | cons n rest => simp [removeEmptySentences]

theorem tdiv_nonpos (m : Int) (h : m ≤ 0) : Int.tdiv m 12 = -((-m) / 12) := by
  have h1 : Int.tdiv (-(-m)) 12 = -(Int.tdiv (-m) 12) := Int.neg_tdiv (-m) 12
  rw [neg_neg] at h1
  rw [h1, Int.tdiv_eq_ediv (by omega) (by omega)]

theorem toInt32_of_range (x : Int) (h1 : -2147483648 ≤ x) (h2 : x ≤ 2147483647) :
    toInt32 x = x := by
  unfold toInt32
  omega

theorem addShift_exact (x sh : Int) (h1 : -2147483648 ≤ x + sh) (h2 : x + sh ≤ 2147483647) :
    addShift x sh = x + sh := by
  unfold addShift toInt32 toUInt32
  omega

theorem octaveShift_exact (m : Int) (h : m ≤ 0)
    (hfit : (1 - Int.tdiv m 12) * 12 ≤ 2147483647) :
    octaveShift m = (1 - Int.tdiv m 12) * 12 := by
  unfold octaveShift toInt32 toUInt32
  rw [tdiv_nonpos m h] at hfit ⊢
  omega

/-- C10 as stated fails: a track with noteMin 0 and a note of pitch 2147483647, the largest
`int`, satisfies the conditions of the claim, but adding the shift 12 wraps the pitch
around to -2147483637, which is not positive. -/
theorem shifted_pitch_wraps :
    (rangeTrack 0 2147483647 [pitched 2147483647]).noteMin ≤ 0 ∧
    (∀ n ∈ (rangeTrack 0 2147483647 [pitched 2147483647]).notes,
      (rangeTrack 0 2147483647 [pitched 2147483647]).noteMin ≤ n.note) ∧
    (adjustNegativeNotes (rangeTrack 0 2147483647 [pitched 2147483647])).notes.map Note.note
      = [-2147483637] ∧
    ¬ (∀ n ∈ (adjustNegativeNotes (rangeTrack 0 2147483647 [pitched 2147483647])).notes,
      0 < n.note) := by
  decide

/-- C10 amended: for every vocal track whose noteMin is at most 0, whose notes all have
pitch at least noteMin, and for which the shift (1 - noteMin/12) * 12, with the truncating
division of C++, and the shifted noteMax and pitches fit a 32-bit `int`, the pitch
normalization of finalize adds that shift, a positive multiple of 12, to noteMin, noteMax
and every note, after which noteMin lies between 1 and 12 and every pitch is strictly
positive; a track whose noteMin is positive is left unchanged. -/
theorem adjustNegativeNotes_spec (vocal : VocalTrack) :
    (vocal.noteMin ≤ 0 →
      (1 - Int.tdiv vocal.noteMin 12) * 12 ≤ 2147483647 →
      -2147483648 ≤ vocal.noteMax →
      vocal.noteMax + (1 - Int.tdiv vocal.noteMin 12) * 12 ≤ 2147483647 →
      (∀ n ∈ vocal.notes, vocal.noteMin ≤ n.note ∧
        n.note + (1 - Int.tdiv vocal.noteMin 12) * 12 ≤ 2147483647) →
      ∃ k : Int, 0 < k ∧ (1 - Int.tdiv vocal.noteMin 12) * 12 = 12 * k ∧
        (adjustNegativeNotes vocal).noteMin = vocal.noteMin + 12 * k ∧
        (adjustNegativeNotes vocal).noteMax = vocal.noteMax + 12 * k ∧
        (adjustNegativeNotes vocal).notes.map Note.note
          = vocal.notes.map (fun n => n.note + 12 * k) ∧
        1 ≤ (adjustNegativeNotes vocal).noteMin ∧ (adjustNegativeNotes vocal).noteMin ≤ 12 ∧
        ∀ n ∈ (adjustNegativeNotes vocal).notes, 0 < n.note) ∧
    (0 < vocal.noteMin → adjustNegativeNotes vocal = vocal) := by
  constructor
  · intro hmin hfit hmax1 hmax2 hnotes
    have hsh := octaveShift_exact vocal.noteMin hmin hfit
    have htd := tdiv_nonpos vocal.noteMin hmin
    have hadj : adjustNegativeNotes vocal =
        { vocal with
          noteMin := addShift vocal.noteMin (octaveShift vocal.noteMin)
          noteMax := addShift vocal.noteMax (octaveShift vocal.noteMin)
          notes := vocal.notes.map (fun n =>
            { n with
              note := addShift n.note (octaveShift vocal.noteMin)
              notePrev := addShift n.notePrev (octaveShift vocal.noteMin) }) } := by
      unfold adjustNegativeNotes
      rw [if_pos hmin]
    obtain ⟨q, hq⟩ : ∃ q, Int.tdiv vocal.noteMin 12 = q := ⟨_, rfl⟩
    have hq1 : q ≤ 0 ∧ vocal.noteMin - 12 * q ≤ 0 ∧ -11 ≤ vocal.noteMin - 12 * q := by
      rw [htd] at hq
      omega
    simp only [hq] at hfit hmax2 hnotes hsh ⊢
    rw [hadj, hsh]
    dsimp only
    have e1 : addShift vocal.noteMin ((1 - q) * 12) = vocal.noteMin + (1 - q) * 12 :=
      addShift_exact _ _ (by omega) (by omega)
    have e2 : addShift vocal.noteMax ((1 - q) * 12) = vocal.noteMax + (1 - q) * 12 :=
      addShift_exact _ _ (by omega) (by omega)
    have e3 : ∀ n ∈ vocal.notes, addShift n.note ((1 - q) * 12) = n.note + (1 - q) * 12 := by
      intro n hn
      have := hnotes n hn
      exact addShift_exact _ _ (by omega) (by omega)
    refine ⟨1 - q, by omega, by ring, ?_, ?_, ?_, ?_, ?_, ?_⟩
    · rw [e1]; ring
    · rw [e2]; ring
    · rw [List.map_map]
      apply List.map_congr_left
      intro n hn
      simp only [Function.comp_apply]
      rw [e3 n hn]; ring
    · rw [e1]; omega
    · rw [e1]; omega
    · intro n hn
      obtain ⟨n0, hn0, rfl⟩ := List.mem_map.mp hn
      dsimp only
      rw [e3 n0 hn0]
      have := hnotes n0 hn0
      omega
  · intro h
    unfold adjustNegativeNotes
    rw [if_neg (by omega)]

/-- C10 amended at a track with noteMin -13 and pitches -13, -5 and 3: the shift is 24. -/
theorem adjustNegativeNotes_spec_witness :
    ∃ k : Int, 0 < k ∧ (1 - Int.tdiv (-13) 12) * 12 = 12 * k ∧
      (adjustNegativeNotes (rangeTrack (-13) 3 [pitched (-13), pitched (-5), pitched 3])).noteMin
        = -13 + 12 * k ∧
      (adjustNegativeNotes (rangeTrack (-13) 3 [pitched (-13), pitched (-5), pitched 3])).noteMax
        = 3 + 12 * k ∧
      (adjustNegativeNotes
          (rangeTrack (-13) 3 [pitched (-13), pitched (-5), pitched 3])).notes.map Note.note
        = [pitched (-13), pitched (-5), pitched 3].map (fun n => n.note + 12 * k) ∧
      1 ≤ (adjustNegativeNotes
          (rangeTrack (-13) 3 [pitched (-13), pitched (-5), pitched 3])).noteMin ∧
      (adjustNegativeNotes
          (rangeTrack (-13) 3 [pitched (-13), pitched (-5), pitched 3])).noteMin ≤ 12 ∧
      ∀ n ∈ (adjustNegativeNotes
          (rangeTrack (-13) 3 [pitched (-13), pitched (-5), pitched 3])).notes, 0 < n.note :=
  (adjustNegativeNotes_spec (rangeTrack (-13) 3 [pitched (-13), pitched (-5), pitched 3])).1
    (by decide) (by decide) (by decide) (by decide) (by decide)

theorem finalize_eq (env : Env) (p : SongParser) :
    finalize env p =
      if (finalizeTracks env p).m_tsPerBeat ≠ 0 then beatLoop env 4294967296 0 (finalizeTracks env p)
      else (finalizeTracks env p, none) := rfl

theorem beatLoop_vocalTracks (env : Env) (fuel ts : Nat) (p : SongParser) :
    (beatLoop env fuel ts p).1.m_song.vocalTracks = p.m_song.vocalTracks := by
  induction fuel generalizing ts p with
  | zero => rfl
  | succ f ih =>
    unfold beatLoop
    split_ifs
    · split
      · rfl
      · rw [ih]
    · rfl

theorem finalize_vocalTracks (env : Env) (p : SongParser) :
    (finalize env p).1.m_song.vocalTracks =
      (vocalsTogether p.m_song).vocalTracks.map
        (fun nt => (nt.1, finalizeTrack env.maxScore nt.2)) := by
  rw [finalize_eq]
  split_ifs
  · rw [beatLoop_vocalTracks]; rfl
  · rfl

theorem mem_finalize_vocalTracks (env : Env) (p : SongParser) (nt : String × VocalTrack)
    (h : nt ∈ (finalize env p).1.m_song.vocalTracks) :
    ∃ v, nt.2 = finalizeTrack env.maxScore v := by
  rw [finalize_vocalTracks] at h
  obtain ⟨nt0, _, rfl⟩ := List.mem_map.mp h
  exact ⟨nt0.2, rfl⟩

theorem addShift_congr (x sh : Int) : (addShift x sh - (x + sh)) % 4294967296 = 0 := by
  unfold addShift toInt32 toUInt32
  omega

theorem adjustNegativeNotes_notes (vocal : VocalTrack) (i : Nat) (n m : Note)
    (hn : vocal.notes.get? i = some n) (hm : (adjustNegativeNotes vocal).notes.get? i = some m) :
    (0 < vocal.noteMin ∧ m = n) ∨
    (vocal.noteMin ≤ 0 ∧ m.note = addShift n.note (octaveShift vocal.noteMin) ∧
      m.notePrev = addShift n.notePrev (octaveShift vocal.noteMin)) := by
  unfold adjustNegativeNotes at hm
  split_ifs at hm with h
  · right
    simp only [List.get?_eq_getElem?, List.getElem?_map] at hm hn
    rw [hn] at hm
    simp only [Option.map_some', Option.some.injEq] at hm
    subst hm
    exact ⟨h, rfl, rfl⟩
  · left
    rw [hn] at hm
    simp only [Option.some.injEq] at hm
    exact ⟨by omega, hm.symm⟩

theorem shiftFits_exact (vocal : VocalTrack) (x : Int) (hmin : vocal.noteMin ≤ 0)
    (h : ShiftFits vocal x) :
    addShift x (octaveShift vocal.noteMin) = x + octaveShift vocal.noteMin := by
  rcases h with h | h
  · omega
  · exact addShift_exact _ _ h.1 h.2

/-- C11 as stated fails: in a track with noteMin 0 and the pitches 0 and 2147483647, the
largest `int`, the shift 12 wraps the second pitch around to -2147483637, so the interval
between the two notes is 2147483647 before the normalization and -2147483649 after it. -/
theorem interval_changes_on_wrap :
    (rangeTrack 0 2147483647 [pitched 0, pitched 2147483647]).notes.map Note.note
      = [0, 2147483647] ∧
    (adjustNegativeNotes (rangeTrack 0 2147483647 [pitched 0, pitched 2147483647])).notes.map
      Note.note = [12, -2147483637] ∧
    ¬ (((adjustNegativeNotes
            (rangeTrack 0 2147483647 [pitched 0, pitched 2147483647])).notes.map Note.note).getD 1 0 -
        ((adjustNegativeNotes
            (rangeTrack 0 2147483647 [pitched 0, pitched 2147483647])).notes.map Note.note).getD 0 0 =
      ((rangeTrack 0 2147483647 [pitched 0, pitched 2147483647]).notes.map Note.note).getD 1 0 -
        ((rangeTrack 0 2147483647 [pitched 0, pitched 2147483647]).notes.map Note.note).getD 0 0) := by
  decide

/-- C11 amended: the pitch normalization of finalize keeps the number of notes, and for
every vocal track and any two of its notes n1 and n2 the interval n2.note - n1.note is the
same after the normalization as before it whenever both shifted pitches still fit a 32-bit
`int`, and is the same modulo 2^32 in every case; the same holds for the note - notePrev
of each note and for noteMax - noteMin of the track. -/
theorem adjustNegativeNotes_intervals (vocal : VocalTrack) :
    (adjustNegativeNotes vocal).notes.length = vocal.notes.length ∧
    (∀ i j n1 n2 m1 m2, vocal.notes.get? i = some n1 → vocal.notes.get? j = some n2 →
      (adjustNegativeNotes vocal).notes.get? i = some m1 →
      (adjustNegativeNotes vocal).notes.get? j = some m2 →
      ((m2.note - m1.note) - (n2.note - n1.note)) % 4294967296 = 0 ∧
      (ShiftFits vocal n1.note → ShiftFits vocal n2.note →
        m2.note - m1.note = n2.note - n1.note)) ∧
    (∀ i n m, vocal.notes.get? i = some n → (adjustNegativeNotes vocal).notes.get? i = some m →
      ((m.note - m.notePrev) - (n.note - n.notePrev)) % 4294967296 = 0 ∧
      (ShiftFits vocal n.note → ShiftFits vocal n.notePrev →
        m.note - m.notePrev = n.note - n.notePrev)) ∧
    (((adjustNegativeNotes vocal).noteMax - (adjustNegativeNotes vocal).noteMin) -
        (vocal.noteMax - vocal.noteMin)) % 4294967296 = 0 ∧
    (ShiftFits vocal vocal.noteMin → ShiftFits vocal vocal.noteMax →
      (adjustNegativeNotes vocal).noteMax - (adjustNegativeNotes vocal).noteMin =
        vocal.noteMax - vocal.noteMin) := by
  refine ⟨?_, ?_, ?_, ?_, ?_⟩
  · unfold adjustNegativeNotes
    split_ifs <;> simp
  · intro i j n1 n2 m1 m2 h1 h2 h3 h4
    rcases adjustNegativeNotes_notes vocal i n1 m1 h1 h3 with ⟨hp, e1⟩ | ⟨hmin, e1, -⟩
    · rcases adjustNegativeNotes_notes vocal j n2 m2 h2 h4 with ⟨_, e2⟩ | ⟨hmin, _, -⟩
      · subst e1 e2
        exact ⟨by simp, fun _ _ => rfl⟩
      · omega
    · rcases adjustNegativeNotes_notes vocal j n2 m2 h2 h4 with ⟨hp, _⟩ | ⟨_, e2, -⟩
      · omega
      · have c1 := addShift_congr n1.note (octaveShift vocal.noteMin)
        have c2 := addShift_congr n2.note (octaveShift vocal.noteMin)
        refine ⟨by rw [e1, e2]; omega, ?_⟩
        intro f1 f2
        rw [e1, e2, shiftFits_exact vocal _ hmin f1, shiftFits_exact vocal _ hmin f2]
        ring
  · intro i n m h1 h2
    rcases adjustNegativeNotes_notes vocal i n m h1 h2 with ⟨hp, e1⟩ | ⟨hmin, e1, e2⟩
    · subst e1
      exact ⟨by simp, fun _ _ => rfl⟩
    · have c1 := addShift_congr n.note (octaveShift vocal.noteMin)
      have c2 := addShift_congr n.notePrev (octaveShift vocal.noteMin)
      refine ⟨by rw [e1, e2]; omega, ?_⟩
      intro f1 f2
      rw [e1, e2, shiftFits_exact vocal _ hmin f1, shiftFits_exact vocal _ hmin f2]
      ring
  · unfold adjustNegativeNotes
    split_ifs with h
    · have c1 := addShift_congr vocal.noteMin (octaveShift vocal.noteMin)
      have c2 := addShift_congr vocal.noteMax (octaveShift vocal.noteMin)
      dsimp only
      omega
    · simp
  · intro f1 f2
    unfold adjustNegativeNotes
    split_ifs with h
    · dsimp only
      rw [shiftFits_exact vocal _ h f1, shiftFits_exact vocal _ h f2]
      ring
    · rfl

/-- C11 amended at a track with noteMin -13 and pitches -13, -5 and 3: the interval of 16
between the first and the last note is kept by the shift of 24. -/
theorem adjustNegativeNotes_intervals_witness :
    (pitched 27).note - (pitched 11).note = (pitched 3).note - (pitched (-13)).note :=
  ((adjustNegativeNotes_intervals
      (rangeTrack (-13) 3 [pitched (-13), pitched (-5), pitched 3])).2.1 0 2
    (pitched (-13)) (pitched 3) (pitched 11) (pitched 27)
    (by decide) (by decide) (by decide) (by decide)).2
    (Or.inr (by decide)) (Or.inr (by decide))

theorem finalizeTrack_scoreFactor (maxScore : Note → ℚ) (vocal : VocalTrack) :
    (finalizeTrack maxScore vocal).m_scoreFactor =
      reciprocal (sumMaxScore maxScore (finalizeTrack maxScore vocal).notes) := rfl

theorem sumMaxScore_nil (maxScore : Note → ℚ) : sumMaxScore maxScore [] = 0 := rfl

theorem reciprocal_of_ne_zero (m : ℚ) (h : m ≠ 0) :
    ∃ q, reciprocal m = ScoreFactor.finite q ∧ q * m = 1 := by
  refine ⟨1 / m, ?_, ?_⟩
  · unfold reciprocal
    rw [if_neg h]
  · field_simp

theorem reciprocal_zero : reciprocal 0 = ScoreFactor.infinite := by
  unfold reciprocal
  rw [if_pos rfl]

/-- C12 as stated fails: with a maximum score that gives a rest nothing, a track that holds
one SLEEP note is non-empty after finalize, its maximum scores sum to 0, and the factor
that finalize stores is the infinite result of 1.0 / 0.0, so no product with the sum
is 1. -/
theorem rest_only_track_has_no_factor :
    (finalizeTrack exampleMaxScore (trackOf [sleep 0 1])).notes ≠ [] ∧
    sumMaxScore exampleMaxScore (finalizeTrack exampleMaxScore (trackOf [sleep 0 1])).notes = 0 ∧
    (finalizeTrack exampleMaxScore (trackOf [sleep 0 1])).m_scoreFactor = ScoreFactor.infinite ∧
    ¬ ∃ q, (finalizeTrack exampleMaxScore (trackOf [sleep 0 1])).m_scoreFactor
        = ScoreFactor.finite q ∧
      q * sumMaxScore exampleMaxScore (finalizeTrack exampleMaxScore (trackOf [sleep 0 1])).notes
        = 1 := by
  have hn : (finalizeTrack exampleMaxScore (trackOf [sleep 0 1])).notes = [sleep 0 1] := by
    decide
  have hs : sumMaxScore exampleMaxScore
      (finalizeTrack exampleMaxScore (trackOf [sleep 0 1])).notes = 0 := by
    rw [hn]
    simp [sumMaxScore, exampleMaxScore, sleep]
  have h : (finalizeTrack exampleMaxScore (trackOf [sleep 0 1])).m_scoreFactor
      = ScoreFactor.infinite := by
    rw [finalizeTrack_scoreFactor, hs, reciprocal_zero]
  refine ⟨by rw [hn]; simp, hs, h, ?_⟩
  rintro ⟨q, hq, -⟩
  rw [h] at hq
  cases hq

/-- C12 amended: for every vocal track of the Song after finalize whose notes have a sum of
maxScore() other than zero (such a track is non-empty), the stored m_scoreFactor is a
finite number and m_scoreFactor times that sum is 1, over exact rational arithmetic. -/
theorem scoreFactor_times_sum (env : Env) (p : SongParser) (nt : String × VocalTrack)
    (hnt : nt ∈ (finalize env p).1.m_song.vocalTracks)
    (hsum : sumMaxScore env.maxScore nt.2.notes ≠ 0) :
    nt.2.notes ≠ [] ∧
    ∃ q, nt.2.m_scoreFactor = ScoreFactor.finite q ∧
      q * sumMaxScore env.maxScore nt.2.notes = 1 := by
  obtain ⟨v, hv⟩ := mem_finalize_vocalTracks env p nt hnt
  constructor
  · intro h
    rw [h] at hsum
    exact hsum rfl
  · rw [hv, finalizeTrack_scoreFactor]
    rw [hv] at hsum
    exact reciprocal_of_ne_zero _ hsum

/-- C13 as stated fails: for a track with no notes the sum max_score is 0 and finalize
still evaluates 1.0 / max_score: the stored factor is the result of dividing by zero. -/
theorem empty_track_divides_by_zero :
    (finalizeTrack exampleMaxScore (trackOf [])).notes = [] ∧
    sumMaxScore exampleMaxScore (finalizeTrack exampleMaxScore (trackOf [])).notes = 0 ∧
    (finalizeTrack exampleMaxScore (trackOf [])).m_scoreFactor = reciprocal 0 ∧
    reciprocal 0 = ScoreFactor.infinite :=
  ⟨by decide, rfl, rfl, reciprocal_zero⟩

/-- C13 amended: for every vocal track of the Song that has no notes after finalize, the sum
max_score is 0, finalize has evaluated 1.0 / max_score with it all the same, and the
m_scoreFactor it stores is the infinite result of that division. -/
theorem empty_track_factor_infinite (env : Env) (p : SongParser) (nt : String × VocalTrack)
    (hnt : nt ∈ (finalize env p).1.m_song.vocalTracks)
    (hempty : nt.2.notes = []) :
    sumMaxScore env.maxScore nt.2.notes = 0 ∧
    nt.2.m_scoreFactor = reciprocal (sumMaxScore env.maxScore nt.2.notes) ∧
    nt.2.m_scoreFactor = ScoreFactor.infinite := by
  obtain ⟨v, hv⟩ := mem_finalize_vocalTracks env p nt hnt
  have h0 : sumMaxScore env.maxScore nt.2.notes = 0 := by rw [hempty]; rfl
  have hf : nt.2.m_scoreFactor = reciprocal (sumMaxScore env.maxScore nt.2.notes) := by
    rw [hv]; rfl
  exact ⟨h0, hf, by rw [hf, h0, reciprocal_zero]⟩

/-- C12 amended at a track of two notes that score 1 each: the factor is 1/2. -/
theorem scoreFactor_times_sum_witness :
    ∃ q, (finalizeTrack (fun _ => 1) (trackOf [la 0 2, la 5 7])).m_scoreFactor
        = ScoreFactor.finite q ∧
      q * sumMaxScore (fun _ => 1) (finalizeTrack (fun _ => 1) (trackOf [la 0 2, la 5 7])).notes
        = 1 :=
  (scoreFactor_times_sum (exampleEnv (zeroBytes 12) false true false false)
    (SongParser.start soloSong)
    ("VOCALS", finalizeTrack (fun _ => 1) (trackOf [la 0 2, la 5 7]))
    (by
      rw [finalize_vocalTracks]
      exact List.mem_map.mpr ⟨("VOCALS", trackOf [la 0 2, la 5 7]), by decide, rfl⟩)
    (by
      have hn : (finalizeTrack (fun _ => 1) (trackOf [la 0 2, la 5 7])).notes
          = [la 0 2, la 5 7] := by decide
      show sumMaxScore (fun _ => 1) (finalizeTrack (fun _ => 1) (trackOf [la 0 2, la 5 7])).notes ≠ 0
      rw [hn]
      norm_num [sumMaxScore])).2

/-- C13 amended at a Song whose only track has no notes: the factor is infinite. -/
theorem empty_track_factor_infinite_witness :
    (finalizeTrack (fun _ => 1) (trackOf [])).m_scoreFactor = ScoreFactor.infinite :=
  (empty_track_factor_infinite (exampleEnv (zeroBytes 12) false true false false)
    (SongParser.start silentSong)
    ("VOCALS", finalizeTrack (fun _ => 1) (trackOf []))
    (by
      rw [finalize_vocalTracks]
      exact List.mem_map.mpr ⟨("VOCALS", trackOf []), by decide, rfl⟩)
    (by decide)).2.2

theorem setTimes_spec (v : VocalTrack) :
    (setTimes v).notes = v.notes ∧
    (v.notes = [] → (setTimes v).beginTime = 0 ∧ (setTimes v).endTime = 0) ∧
    (∀ f, v.notes.head? = some f → (setTimes v).beginTime = f.begin) ∧
    (∀ l, v.notes.getLast? = some l → (setTimes v).endTime = l.end_) := by
  unfold setTimes
  cases hn : v.notes with
  | nil => simp
  | cons a l =>
    have hl : (a :: l).getLast? = some ((a :: l).getLast (by simp)) := List.getLast?_eq_getLast _ _
    simp only [List.head?_cons, hl]
    refine ⟨trivial, by simp, ?_, ?_⟩
    · intro f hf
      simp only [Option.some.injEq] at hf
      rw [← hf]
    · intro b hb
      simp only [Option.some.injEq] at hb
      rw [← hb]

theorem adjustNegativeNotes_times (v : VocalTrack) :
    (adjustNegativeNotes v).notes.map Note.times = v.notes.map Note.times := by
  unfold adjustNegativeNotes
  split_ifs
  · simp only [List.map_map]
    apply List.map_congr_left
    intro n _
    rfl
  · rfl

theorem finalizeTrack_times (maxScore : Note → ℚ) (v : VocalTrack) :
    ((finalizeTrack maxScore v).notes = [] →
      (finalizeTrack maxScore v).beginTime = 0 ∧ (finalizeTrack maxScore v).endTime = 0) ∧
    (∀ f, (finalizeTrack maxScore v).notes.head? = some f →
      (finalizeTrack maxScore v).beginTime = f.begin) ∧
    (∀ l, (finalizeTrack maxScore v).notes.getLast? = some l →
      (finalizeTrack maxScore v).endTime = l.end_) ∧
    (finalizeTrack maxScore v).notes.map Note.times =
      (removeEmptySentences NoteType.NORMAL v.notes).map Note.times := by
  have h := setTimes_spec
    (adjustNegativeNotes { v with notes := removeEmptySentences NoteType.NORMAL v.notes })
  have hn : (finalizeTrack maxScore v).notes =
      (adjustNegativeNotes
        { v with notes := removeEmptySentences NoteType.NORMAL v.notes }).notes := h.1
  refine ⟨?_, ?_, ?_, ?_⟩
  · intro he; rw [hn] at he; exact h.2.1 he
  · intro f hf; rw [hn] at hf; exact h.2.2.1 f hf
  · intro l hl; rw [hn] at hl; exact h.2.2.2 l hl
  · rw [hn]; exact adjustNegativeNotes_times _

/-- C16: for every vocal track of the Song after finalize, the cached beginTime is the start
time of the first note of the track and endTime the end time of its last note, both are 0
when the track has no notes, and the notes of the track are, in start and end times, the
notes of that track as they stand after the empty-sentence removal. -/
theorem finalize_times (env : Env) (p : SongParser) (nt : String × VocalTrack)
    (hnt : nt ∈ (finalize env p).1.m_song.vocalTracks) :
    (nt.2.notes = [] → nt.2.beginTime = 0 ∧ nt.2.endTime = 0) ∧
    (∀ f, nt.2.notes.head? = some f → nt.2.beginTime = f.begin) ∧
    (∀ l, nt.2.notes.getLast? = some l → nt.2.endTime = l.end_) ∧
    ∃ nt0 ∈ (vocalsTogether p.m_song).vocalTracks, nt0.1 = nt.1 ∧
      nt.2.notes.map Note.times =
        (removeEmptySentences NoteType.NORMAL nt0.2.notes).map Note.times := by
  rw [finalize_vocalTracks] at hnt
  obtain ⟨nt0, hm, rfl⟩ := List.mem_map.mp hnt
  have h := finalizeTrack_times env.maxScore nt0.2
  exact ⟨h.1, h.2.1, h.2.2.1, nt0, hm, rfl, h.2.2.2⟩

/-- C16 at a track [SLEEP(0,1), SLEEP(1,2), (2,3), (5,7)]: after finalize it begins at 0 and
ends at 7. -/
theorem finalize_times_witness :
    (finalizeTrack (fun _ => 1) (trackOf [sleep 0 1, sleep 1 2, la 2 3, la 5 7])).beginTime = 0 ∧
    (finalizeTrack (fun _ => 1) (trackOf [sleep 0 1, sleep 1 2, la 2 3, la 5 7])).endTime = 7 :=
  ⟨(finalize_times (exampleEnv (zeroBytes 12) false true false false)
      (SongParser.start (songOf [("VOCALS", trackOf [sleep 0 1, sleep 1 2, la 2 3, la 5 7])]))
      ("VOCALS", finalizeTrack (fun _ => 1) (trackOf [sleep 0 1, sleep 1 2, la 2 3, la 5 7]))
      (by
        rw [finalize_vocalTracks]
        exact List.mem_map.mpr
          ⟨("VOCALS", trackOf [sleep 0 1, sleep 1 2, la 2 3, la 5 7]), by decide, rfl⟩)).2.1
      (sleep 0 1) (by decide),
    (finalize_times (exampleEnv (zeroBytes 12) false true false false)
      (SongParser.start (songOf [("VOCALS", trackOf [sleep 0 1, sleep 1 2, la 2 3, la 5 7])]))
      ("VOCALS", finalizeTrack (fun _ => 1) (trackOf [sleep 0 1, sleep 1 2, la 2 3, la 5 7]))
      (by
        rw [finalize_vocalTracks]
        exact List.mem_map.mpr
          ⟨("VOCALS", trackOf [sleep 0 1, sleep 1 2, la 2 3, la 5 7]), by decide, rfl⟩)).2.2.1
      (la 5 7) (by decide)⟩

theorem vocalsTogether_preview (s : Song) :
    (vocalsTogether s).preview_start = s.preview_start := by
  unfold vocalsTogether
  split
  · rfl
  · dsimp only
    split_ifs <;> rfl

theorem beatLoop_preview (env : Env) (fuel ts : Nat) (p : SongParser) :
    (beatLoop env fuel ts p).1.m_song.preview_start = p.m_song.preview_start := by
  induction fuel generalizing ts p with
  | zero => rfl
  | succ f ih =>
    unfold beatLoop
    split_ifs
    · split
      · rfl
      · rw [ih]
    · rfl

theorem finalize_preview (env : Env) (p : SongParser) :
    (finalize env p).1.m_song.preview_start = p.m_song.preview_start := by
  rw [finalize_eq]
  split_ifs
  · rw [beatLoop_preview]; exact vocalsTogether_preview _
  · exact vocalsTogether_preview _

theorem parseBody_preview (env : Env) (henv : env.BodyKeepsPreview) (type : FileType)
    (p : SongParser) :
    (parseBody env type p).1.m_song.preview_start = p.m_song.preview_start := by
  obtain ⟨h5, h6, h7, h8⟩ := henv
  unfold parseBody
  split_ifs
  · exact h5 p
  · exact h6 p
  · exact h7 p
  · exact h8 p
  · rfl

theorem parseAndFinalize_preview (env : Env) (henv : env.BodyKeepsPreview) (type : FileType)
    (p : SongParser) :
    (parseAndFinalize env type p).1.m_song.preview_start = p.m_song.preview_start := by
  have hb := parseBody_preview env henv type p
  unfold parseAndFinalize
  split
  · next p2 t heq => rw [heq] at hb; exact hb
  · next p2 heq =>
    rw [heq] at hb
    have hf := finalize_preview env p2
    split
    · next p3 t heq2 => rw [heq2] at hf; exact hf.trans hb
    · next p3 heq2 => rw [heq2] at hf; exact hf.trans hb

theorem removeBogus_preview (env : Env) (s : Song) :
    (removeBogus env s).preview_start = s.preview_start := by
  unfold removeBogus
  dsimp only
  split_ifs <;> rfl

theorem guessFile_preview (env : Env) (s : Song) (name : String) :
    (guessFile env s name).preview_start = s.preview_start := by
  unfold guessFile
  split_ifs <;> rfl

theorem foldl_guessFile_preview (env : Env) (names : List String) (s : Song) :
    (names.foldl (guessFile env) s).preview_start = s.preview_start := by
  induction names generalizing s with
  | nil => rfl
  | cons n ns ih => rw [List.foldl_cons, ih, guessFile_preview]

theorem guessFiles_preview (env : Env) (s : Song) :
    (guessFiles env s).1.preview_start = s.preview_start := by
  unfold guessFiles
  split_ifs
  · split
    · rfl
    · exact foldl_guessFile_preview env _ s
  · rfl

theorem parseAs_preview (env : Env) (henv : env.BodyKeepsPreview) (s : Song) (type : FileType)
    (data : List UInt8) (p2 : SongParser) (hstatus : s.loadStatus ≠ LoadStatus.HEADER)
    (hhead : parseHeader env type
      { SongParser.start s with m_ss := env.convertToUTF8 data (s.path ++ s.filename) }
        = (p2, none)) :
    (parseAs env s type data).1.m_song.preview_start
      = (defaultPreview type p2.m_song).preview_start := by
  unfold parseAs
  dsimp only
  rw [if_neg (by simpa [SongParser.start] using hstatus), hhead]
  dsimp only
  have hg := guessFiles_preview env (removeBogus env (defaultPreview type p2.m_song))
  rw [removeBogus_preview] at hg
  split
  · next s4 t heq => rw [heq] at hg; exact hg
  · next s4 heq =>
    rw [heq] at hg
    rw [parseAndFinalize_preview env henv]
    exact hg

/-- C15: on a Song that is not HEADER, once the type is detected and the header reader has
run, a preview_start that the header parse left unset (NaN) is 5.0 on the Song the
constructor leaves when the detected format is INI and 30.0 for every other format, and a
preview_start that the header reader did set is left unchanged; the body readers are taken
not to assign preview_start. -/
theorem constructor_default_preview (env : Env) (s : Song) (type : FileType)
    (data : List UInt8) (p2 : SongParser)
    (henv : env.BodyKeepsPreview)
    (hstatus : s.loadStatus ≠ LoadStatus.HEADER)
    (hdet : readAndDetect env s = .ok (type, data))
    (hhead : parseHeader env type
      { SongParser.start s with m_ss := env.convertToUTF8 data (s.path ++ s.filename) }
        = (p2, none)) :
    (p2.m_song.preview_start = none → type = FileType.INI →
      (SongParser.SongParser env s).1.preview_start = some 5) ∧
    (p2.m_song.preview_start = none → type ≠ FileType.INI →
      (SongParser.SongParser env s).1.preview_start = some 30) ∧
    (∀ v, p2.m_song.preview_start = some v →
      (SongParser.SongParser env s).1.preview_start = some v) := by
  have hc : (SongParser.SongParser env s).1 = (parseAs env s type data).1.m_song := by
    unfold SongParser.SongParser constructorBody
    rw [hdet]
    dsimp only
    split <;> next heq => rw [heq]
  rw [hc, parseAs_preview env henv s type data p2 hstatus hhead]
  refine ⟨?_, ?_, ?_⟩
  · intro hn ht
    unfold defaultPreview
    rw [hn]
    simp [ht]
  · intro hn ht
    unfold defaultPreview
    rw [hn]
    simp [ht]
  · intro v hv
    unfold defaultPreview
    rw [hv]
    exact hv

theorem exampleEnv_bodyKeepsPreview (data : List UInt8) (a b c d : Bool) :
    (exampleEnv data a b c d).BodyKeepsPreview :=
  ⟨fun _ => rfl, fun _ => rfl, fun _ => rfl, fun _ => rfl⟩

/-- C15 at an INI file and at a TXT file whose header readers set no preview position: the
Song ends with 5 and with 30. -/
theorem constructor_default_preview_witness :
    (SongParser.SongParser (exampleEnv (zeroBytes 12) false false true false)
      (exampleSong LoadStatus.EMPTY)).1.preview_start = some 5 ∧
    (SongParser.SongParser (exampleEnv (zeroBytes 12) false true false false)
      (exampleSong LoadStatus.EMPTY)).1.preview_start = some 30 :=
  ⟨(constructor_default_preview (exampleEnv (zeroBytes 12) false false true false)
      (exampleSong LoadStatus.EMPTY) FileType.INI (zeroBytes 12)
      { SongParser.start (exampleSong LoadStatus.EMPTY) with m_ss := zeroBytes 12 }
      (exampleEnv_bodyKeepsPreview _ _ _ _ _) (by decide) rfl rfl).1 rfl rfl,
   (constructor_default_preview (exampleEnv (zeroBytes 12) false true false false)
      (exampleSong LoadStatus.EMPTY) FileType.TXT (zeroBytes 12)
      { SongParser.start (exampleSong LoadStatus.EMPTY) with m_ss := zeroBytes 12 }
      (exampleEnv_bodyKeepsPreview _ _ _ _ _) (by decide) rfl rfl).2.1 rfl (by decide)⟩

theorem vocalsTogether_beats (s : Song) : (vocalsTogether s).beats = s.beats := by
  unfold vocalsTogether
  split
  · rfl
  · dsimp only
    split_ifs <;> rfl

theorem finalizeTracks_eq_withBeats (env : Env) (p : SongParser) :
    finalizeTracks env p = withBeats (finalizeTracks env p) p.m_song.beats := by
  unfold withBeats finalizeTracks
  simp only [vocalsTogether_beats]

theorem lt_ticks_iff (p e k : Nat) (hp : 0 < p) : k < (e + p - 1) / p ↔ k * p < e := by
  rw [Nat.lt_iff_add_one_le, Nat.le_div_iff_mul_le hp]
  constructor
  · intro h
    have : (k + 1) * p = k * p + p := by ring
    omega
  · intro h
    have : (k + 1) * p = k * p + p := by ring
    omega

theorem beatLoop_run (env : Env) (q0 : SongParser) (f : Nat → ℚ)
    (hpos : 0 < q0.m_tsPerBeat) (hfit : q0.m_tsEnd + q0.m_tsPerBeat < 4294967296)
    (htime : ∀ bs t, t < q0.m_tsEnd → env.tsTime (withBeats q0 bs) t = .ok (f t))
    (d k fuel : Nat) (bs : List ℚ)
    (hd : k + d = max k ((q0.m_tsEnd + q0.m_tsPerBeat - 1) / q0.m_tsPerBeat))
    (hfuel : d < fuel) :
    beatLoop env fuel (k * q0.m_tsPerBeat) (withBeats q0 bs) =
      (withBeats q0 (bs ++ (List.range' k d).map (fun j => f (j * q0.m_tsPerBeat))), none) := by
  induction d generalizing k fuel bs with
  | zero =>
    obtain ⟨fuel, rfl⟩ : ∃ g, fuel = g + 1 := ⟨fuel - 1, by omega⟩
    have hk : ¬ k * q0.m_tsPerBeat < q0.m_tsEnd := by
      rw [← lt_ticks_iff _ _ _ hpos]
      have := le_max_right k ((q0.m_tsEnd + q0.m_tsPerBeat - 1) / q0.m_tsPerBeat)
      omega
    unfold beatLoop
    have he : (withBeats q0 bs).m_tsEnd = q0.m_tsEnd := rfl
    rw [he, if_neg hk]
    simp
  | succ d ih =>
    obtain ⟨fuel, rfl⟩ : ∃ g, fuel = g + 1 := ⟨fuel - 1, by omega⟩
    have hk : k * q0.m_tsPerBeat < q0.m_tsEnd := by
      rw [← lt_ticks_iff _ _ _ hpos]
      rcases le_total k ((q0.m_tsEnd + q0.m_tsPerBeat - 1) / q0.m_tsPerBeat) with h | h
      · rw [max_eq_right h] at hd; omega
      · rw [max_eq_left h] at hd; omega
    have hnext : (k * q0.m_tsPerBeat + q0.m_tsPerBeat) % 4294967296
        = (k + 1) * q0.m_tsPerBeat := by
      have : (k + 1) * q0.m_tsPerBeat = k * q0.m_tsPerBeat + q0.m_tsPerBeat := by ring
      rw [this]
      exact Nat.mod_eq_of_lt (by omega)
    have hd2 : (k + 1) + d
        = max (k + 1) ((q0.m_tsEnd + q0.m_tsPerBeat - 1) / q0.m_tsPerBeat) := by
      have hlt := (lt_ticks_iff q0.m_tsPerBeat q0.m_tsEnd k hpos).mpr hk
      rw [max_eq_right (by omega)] at hd ⊢
      omega
    unfold beatLoop
    have he : (withBeats q0 bs).m_tsEnd = q0.m_tsEnd := rfl
    rw [he, if_pos hk, htime bs _ hk]
    change beatLoop env fuel ((k * q0.m_tsPerBeat + q0.m_tsPerBeat) % 4294967296)
      (withBeats q0 (bs ++ [f (k * q0.m_tsPerBeat)])) = _
    rw [hnext, ih (k + 1) fuel _ hd2 (by omega)]
    simp [List.range'_succ]

theorem mem_beatTicks (p e : Nat) (hp : 0 < p) (t : Nat) :
    t ∈ beatTicks p e ↔ p ∣ t ∧ t < e := by
  unfold beatTicks
  rw [List.mem_map]
  constructor
  · rintro ⟨k, hk, rfl⟩
    rw [List.mem_range, lt_ticks_iff p e k hp] at hk
    exact ⟨Dvd.intro_left k rfl, hk⟩
  · rintro ⟨⟨k, rfl⟩, hlt⟩
    refine ⟨k, ?_, Nat.mul_comm k p⟩
    rw [List.mem_range, lt_ticks_iff p e k hp, Nat.mul_comm]
    exact hlt

theorem beatTicks_sorted (p e : Nat) (hp : 0 < p) :
    List.Pairwise (fun a b : Nat => a < b) (beatTicks p e) := by
  unfold beatTicks
  rw [List.pairwise_map]
  exact List.Pairwise.imp (fun h => Nat.mul_lt_mul_of_pos_right h hp) (List.pairwise_lt_range _)

/-- C17: for every ticks-per-beat value p > 0 and end tick e with e + p below 2^32, when
tsTime gives a value f t at every tick t below e, finalize succeeds and appends to the beat
sequence of the Song exactly the values f t for the tick multiples t = 0, p, 2p, ... below
e, behind the beats already present; these ticks are exactly the multiples of p below e, in
strictly increasing order, so one per multiple; when p = 0 the beat sequence is left
unchanged. -/
theorem finalize_beats (env : Env) (p : SongParser) :
    (∀ f : Nat → ℚ, 0 < p.m_tsPerBeat → p.m_tsEnd + p.m_tsPerBeat < 4294967296 →
      (∀ bs t, t < p.m_tsEnd →
        env.tsTime (withBeats (finalizeTracks env p) bs) t = .ok (f t)) →
      (finalize env p).2 = none ∧
      (finalize env p).1.m_song.beats =
        p.m_song.beats ++ (beatTicks p.m_tsPerBeat p.m_tsEnd).map f) ∧
    (∀ tpb e : Nat, 0 < tpb →
      (∀ t, t ∈ beatTicks tpb e ↔ tpb ∣ t ∧ t < e) ∧
      List.Pairwise (fun a b : Nat => a < b) (beatTicks tpb e)) ∧
    (p.m_tsPerBeat = 0 →
      (finalize env p).2 = none ∧ (finalize env p).1.m_song.beats = p.m_song.beats) := by
  refine ⟨?_, fun tpb e h => ⟨mem_beatTicks tpb e h, beatTicks_sorted tpb e h⟩, ?_⟩
  · intro f hpos hfit htime
    have hpos2 : 0 < (finalizeTracks env p).m_tsPerBeat := hpos
    have hfit2 : (finalizeTracks env p).m_tsEnd + (finalizeTracks env p).m_tsPerBeat
        < 4294967296 := hfit
    have hle : (p.m_tsEnd + p.m_tsPerBeat - 1) / p.m_tsPerBeat < 4294967296 :=
      lt_of_le_of_lt (Nat.div_le_self _ _) (by omega)
    have hrun := beatLoop_run env (finalizeTracks env p) f hpos2 hfit2 htime
      ((p.m_tsEnd + p.m_tsPerBeat - 1) / p.m_tsPerBeat) 0 4294967296 p.m_song.beats
      (by
        show 0 + (p.m_tsEnd + p.m_tsPerBeat - 1) / p.m_tsPerBeat
          = max 0 ((p.m_tsEnd + p.m_tsPerBeat - 1) / p.m_tsPerBeat)
        simp)
      hle
    rw [← finalizeTracks_eq_withBeats, Nat.zero_mul] at hrun
    have hne : (finalizeTracks env p).m_tsPerBeat ≠ 0 := by omega
    rw [finalize_eq, if_pos hne, hrun]
    refine ⟨rfl, ?_⟩
    show p.m_song.beats ++ _ = p.m_song.beats ++ _
    rw [← List.range_eq_range']
    unfold beatTicks
    rw [List.map_map]
    rfl
  · intro h0
    have hz : ¬ (finalizeTracks env p).m_tsPerBeat ≠ 0 := by
      intro h; exact h h0
    rw [finalize_eq, if_neg hz]
    exact ⟨rfl, vocalsTogether_beats _⟩

/-- C17 at 480 ticks per beat and end tick 1000: the beats for the ticks 0, 480 and 960 are
appended. -/
theorem finalize_beats_witness :
    beatTicks 480 1000 = [0, 480, 960] ∧
    (finalize (exampleEnv (zeroBytes 12) false true false false) tickParser).2 = none ∧
    (finalize (exampleEnv (zeroBytes 12) false true false false) tickParser).1.m_song.beats =
      tickParser.m_song.beats ++ (beatTicks 480 1000).map (fun t => (t : ℚ)) :=
  ⟨by decide,
    (finalize_beats (exampleEnv (zeroBytes 12) false true false false) tickParser).1
      (fun t => (t : ℚ)) (by decide) (by decide) (fun _ _ _ => rfl)⟩

theorem contains_middle (a s b : String) : ContainsVerbatim (a ++ s ++ b) s := by
  unfold ContainsVerbatim
  exact ⟨a.data, b.data, by simp [String.data_append]⟩

theorem contains_end (a s : String) : ContainsVerbatim (a ++ s) s := by
  unfold ContainsVerbatim
  exact ⟨a.data, [], by simp [String.data_append]⟩

/-- C14: the overloads for int, unsigned and bool, when they reject a string, leave the
variable unchanged and throw a message that contains the string verbatim; the overload for
double leaves the variable unchanged too, but its message contains the string after the
decimal separators were fixed: for the rejected input 1,2,3 the message shows 1.2.3 and
does not contain the raw input. -/
theorem assign_failure_messages :
    (∀ (cast : LexicalCast) (var : Int) (str : String), cast.toInt str = none →
      (assignInt cast var str).1 = var ∧
      ∃ msg, (assignInt cast var str).2 = some msg ∧ ContainsVerbatim msg str) ∧
    (∀ (cast : LexicalCast) (var : Int) (str : String), cast.toInt str = none →
      (assignUnsigned cast var str).1 = var ∧
      ∃ msg, (assignUnsigned cast var str).2 = some msg ∧ ContainsVerbatim msg str) ∧
    (∀ (var : Bool) (str : String), (assignBool var str).2 ≠ none →
      (assignBool var str).1 = var ∧
      ∃ msg, (assignBool var str).2 = some msg ∧ ContainsVerbatim msg str) ∧
    (∀ (cast : LexicalCast) (var : ℚ) (str : String), cast.toDouble (fixSeparators str) = none →
      (assignDouble cast var str).1 = var ∧
      ∃ msg, (assignDouble cast var str).2 = some msg ∧
        ContainsVerbatim msg (fixSeparators str)) ∧
    ((assignDouble exampleCast 120 "1,2,3").1 = 120 ∧
      (assignDouble exampleCast 120 "1,2,3").2
        = some (quote ++ "1.2.3" ++ (quote ++ " is not valid floating point value")) ∧
      ¬ ContainsVerbatim (quote ++ "1.2.3" ++ (quote ++ " is not valid floating point value"))
        "1,2,3") := by
  refine ⟨?_, ?_, ?_, ?_, ?_⟩
  · intro cast var str h
    unfold assignInt
    rw [h]
    exact ⟨rfl, _, rfl, contains_middle _ _ _⟩
  · intro cast var str h
    unfold assignUnsigned
    rw [h]
    exact ⟨rfl, _, rfl, contains_middle _ _ _⟩
  · intro var str h
    unfold assignBool at h ⊢
    split_ifs at h ⊢
    · exact absurd rfl h
    · exact absurd rfl h
    · exact ⟨rfl, _, rfl, contains_end _ _⟩
  · intro cast var str h
    unfold assignDouble
    rw [h]
    exact ⟨rfl, _, rfl, contains_middle _ _ _⟩
  · refine ⟨by decide, by decide, ?_⟩
    unfold ContainsVerbatim
    decide

/-- C14 at the rejected integer field 12a: the variable keeps its value 7 and the message
contains 12a. -/
theorem assign_failure_messages_witness :
    (assignInt exampleCast 7 "12a").1 = 7 ∧
    ∃ msg, (assignInt exampleCast 7 "12a").2 = some msg ∧ ContainsVerbatim msg "12a" :=
  assign_failure_messages.1 exampleCast 7 "12a" (by decide)

theorem uniqueFrom_sublist {α : Type} [DecidableEq α] (last : α) (l : List α) :
    List.Sublist (uniqueFrom last l) l := by
  induction l generalizing last with
  | nil => exact List.Sublist.refl _
  | cons b rest ih =>
    unfold uniqueFrom
    split_ifs
    · exact List.Sublist.cons _ (ih last)
    · exact List.Sublist.cons₂ _ (ih b)

theorem unique_sublist {α : Type} [DecidableEq α] (l : List α) :
    List.Sublist (unique l) l := by
  cases l with
  | nil => exact List.Sublist.refl _
  | cons a rest => exact List.Sublist.cons₂ _ (uniqueFrom_sublist a rest)

theorem uniqueFrom_chain {α : Type} [DecidableEq α] (last : α) (l : List α) :
    List.Chain (fun a b : α => a ≠ b) last (uniqueFrom last l) := by
  induction l generalizing last with
  | nil => exact List.Chain.nil
  | cons b rest ih =>
    unfold uniqueFrom
    split_ifs with h
    · exact ih last
    · exact List.Chain.cons h (ih b)

theorem unique_chain {α : Type} [DecidableEq α] (l : List α) :
    List.Chain' (fun a b : α => a ≠ b) (unique l) := by
  cases l with
  | nil => exact List.chain'_nil
  | cons a rest => exact uniqueFrom_chain a rest

theorem mem_uniqueFrom {α : Type} [DecidableEq α] (last : α) (l : List α) (x : α)
    (hx : x ∈ l) : x = last ∨ x ∈ uniqueFrom last l := by
  induction l generalizing last with
  | nil => simp at hx
  | cons b rest ih =>
    unfold uniqueFrom
    rcases List.mem_cons.mp hx with rfl | hm
    · split_ifs with h
      · left; exact h.symm
      · right; exact List.mem_cons_self _ _
    · split_ifs with h
      · exact ih last hm
      · rcases ih b hm with rfl | h2
        · right; exact List.mem_cons_self _ _
        · right; exact List.mem_cons_of_mem _ h2

theorem mem_unique {α : Type} [DecidableEq α] (l : List α) (x : α) :
    x ∈ unique l ↔ x ∈ l := by
  constructor
  · exact fun h => (unique_sublist l).subset h
  · intro hx
    cases l with
    | nil => simp at hx
    | cons a rest =>
      rcases List.mem_cons.mp hx with rfl | hm
      · exact List.mem_cons_self _ _
      · rcases mem_uniqueFrom a rest x hm with rfl | h2
        · exact List.mem_cons_self _ _
        · exact List.mem_cons_of_mem _ h2

/-- C18: the code does not assure what its comment says. For a standard installation under
/usr, where the directory relative to the executable is also an entry of XDG_DATA_DIRS and
an existing /usr/local directory lies between the two, the list that getPaths builds holds
/usr/share/performous twice. Whenever getPaths builds the list, the list holds exactly the
existing candidates, in their original order, and no two neighbours in it are equal. -/
theorem getPaths_keeps_distant_duplicates :
    ((getPaths usrInstall false { paths := [], initialized := false }).2 =
        ["/usr/share/performous", "/usr/local/share/performous", "/usr/share/performous"] ∧
      ¬ (getPaths usrInstall false { paths := [], initialized := false }).2.Nodup) ∧
    (∀ (α : Type) [DecidableEq α] (env : PathEnv α) (refresh : Bool) (st : PathsState α),
      st.initialized = false ∨ refresh = true →
      List.Sublist (getPaths env refresh st).2 (candidateDirs env) ∧
      List.Chain' (fun a b : α => a ≠ b) (getPaths env refresh st).2 ∧
      ∀ p, p ∈ (getPaths env refresh st).2 ↔
        p ∈ candidateDirs env ∧ env.pathExists p = true) := by
  refine ⟨⟨by decide, by decide⟩, ?_⟩
  intro α _ env refresh st hbuild
  have hc : (!st.initialized || refresh) = true := by
    rcases hbuild with h | h <;> simp [h]
  have hb : (getPaths env refresh st).2
      = unique ((candidateDirs env).filter (fun p => !pathNotExist env p)) := by
    unfold getPaths
    rw [if_pos hc]
  rw [hb]
  refine ⟨(unique_sublist _).trans (List.filter_sublist _), unique_chain _, ?_⟩
  intro p
  rw [mem_unique, List.mem_filter]
  unfold pathNotExist
  cases env.pathExists p <;> simp

/-- C18 on a refresh of the standard installation: the list is a subsequence of the
candidates. -/
theorem getPaths_keeps_distant_duplicates_witness :
    List.Sublist (getPaths usrInstall true { paths := [], initialized := true }).2
      (candidateDirs usrInstall) :=
  (getPaths_keeps_distant_duplicates.2 String usrInstall true
    { paths := [], initialized := true } (Or.inr rfl)).1

end Performous
